import Mathlib

/-!
Verification of the deterministic signal pipeline and identity-resolution
engine: a shallow embedding, in Lean, of the extraction, taxonomy-prefilter
and identity-resolution code, with theorems settling the specification
claims about it.

Modelling conventions:
* Python `str` is modelled by `String` (a wrapper around `List Char`);
  character classes (`str.strip` whitespace, regex `\w`, `\s`, `\d`,
  `str.lower`) are modelled over ASCII, plus NBSP for `strip`.  All inputs
  exercised by the theorems are ASCII.
* Python `float` is modelled by `ℚ` (exact arithmetic); the numeric claims
  under audit are about exact formulas, thresholds and orderings, none of
  which depend on IEEE-754 rounding at the modelled call sites.
* Python `dict` is modelled by association lists looked up with
  `List.lookup`; the dict invariant (no duplicate keys) appears as a
  `Nodup` hypothesis where a theorem needs it.
* fallible code returns `Except`/`Option`; an exception value carries the
  (unmutated) receiver state where a claim speaks about state on raise.
-/

/-- Python whitespace for `str.strip` (ASCII whitespace plus NBSP; other
Unicode space characters are outside the model). -/
def pyIsSpace (c : Char) : Bool :=
  c = ' ' || c = '\t' || c = '\n' || c = '\x0d' || c = '\x0b' || c = '\x0c' || c = '\xa0'

/-- Python `str.strip()` on the underlying character list. -/
def pyStripChars (l : List Char) : List Char :=
  ((l.dropWhile pyIsSpace).reverse.dropWhile pyIsSpace).reverse

/-- Python `str.strip()`. -/
def pyStrip (s : String) : String := ⟨pyStripChars s.data⟩

/-- Python `str.lower()` (ASCII letters; other characters unchanged). -/
def pyLower (s : String) : String := ⟨s.data.map Char.toLower⟩

/-- Order-preserving, first-occurrence deduplication relative to an
already-seen list: keeps each element of `l` not in `seen` the first time
it appears.  This is the common shape of every `seen`-set loop in the
code base (candidate merging, option-group merging, fallback passes). -/
def dedupNotIn {α : Type} [DecidableEq α] : List α → List α → List α
  | _, [] => []
  | seen, x :: rest =>
    if x ∈ seen then dedupNotIn seen rest
    else x :: dedupNotIn (seen ++ [x]) rest

/-- First-occurrence deduplication of a list. -/
def dedupFirst {α : Type} [DecidableEq α] (l : List α) : List α := dedupNotIn [] l

/-- Sorting a list of strings, modelling Python `sorted` on `str` keys. -/
def pySortStrings (l : List String) : List String :=
  l.insertionSort (· ≤ ·)

/-! ## Data model (src/models.py) -/

/-- A Python value handed to `merge_unique`: the code only distinguishes
strings from everything else (`isinstance(value, str)`); non-strings are
skipped. -/
inductive PyVal where
  | str (s : String)
  | nonstr
deriving DecidableEq

/-- A Python scalar stored in `raw_attributes` (str | int | float | bool). -/
inductive PyScalar where
  | s (v : String)
  | i (v : Int)
  | f (v : ℚ)
  | b (v : Bool)
deriving DecidableEq

/-- models.py `OptionValue`. -/
structure OptionValue where
  value : String
  available : Bool := true
  price_delta : Option ℚ := none
deriving DecidableEq

/-- models.py `OptionGroup`. -/
structure OptionGroup where
  dimension : String
  options : List OptionValue
deriving DecidableEq

/-- models.py `ExtractionContext` (the spec's CandidateContext): the
per-page candidate bag. `raw_attributes` is the insertion-ordered dict. -/
structure ExtractionContext where
  page_url : Option String := none
  title_candidates : List String := []
  description_candidates : List String := []
  brand_candidates : List String := []
  price_candidates : List String := []
  currency_candidates : List String := []
  image_url_candidates : List String := []
  category_hint_candidates : List String := []
  key_feature_candidates : List String := []
  option_group_candidates : List OptionGroup := []
  raw_attributes : List (String × PyScalar) := []
deriving DecidableEq

/-- models.py `ExtractionContext._CANDIDATE_FIELDS`. -/
def CANDIDATE_FIELDS : List String :=
  ["title_candidates", "description_candidates", "brand_candidates",
   "price_candidates", "currency_candidates", "image_url_candidates",
   "category_hint_candidates", "key_feature_candidates"]

/-- Python `getattr(self, field_name)` for the eight candidate list fields
(only ever evaluated on names in `CANDIDATE_FIELDS`). -/
def ExtractionContext.getField (ctx : ExtractionContext) (field_name : String) : List String :=
  if field_name = "title_candidates" then ctx.title_candidates
  else if field_name = "description_candidates" then ctx.description_candidates
  else if field_name = "brand_candidates" then ctx.brand_candidates
  else if field_name = "price_candidates" then ctx.price_candidates
  else if field_name = "currency_candidates" then ctx.currency_candidates
  else if field_name = "image_url_candidates" then ctx.image_url_candidates
  else if field_name = "category_hint_candidates" then ctx.category_hint_candidates
  else if field_name = "key_feature_candidates" then ctx.key_feature_candidates
  else []

/-- Replacing one candidate list field, by name. -/
def ExtractionContext.setField (ctx : ExtractionContext) (field_name : String)
    (l : List String) : ExtractionContext :=
  if field_name = "title_candidates" then { ctx with title_candidates := l }
  else if field_name = "description_candidates" then { ctx with description_candidates := l }
  else if field_name = "brand_candidates" then { ctx with brand_candidates := l }
  else if field_name = "price_candidates" then { ctx with price_candidates := l }
  else if field_name = "currency_candidates" then { ctx with currency_candidates := l }
  else if field_name = "image_url_candidates" then { ctx with image_url_candidates := l }
  else if field_name = "category_hint_candidates" then { ctx with category_hint_candidates := l }
  else if field_name = "key_feature_candidates" then { ctx with key_feature_candidates := l }
  else ctx

/-- One iteration of the loop body of `ExtractionContext.merge_unique`
(models.py lines 208-215): non-strings are skipped; a string is stripped
and appended unless empty or already seen.  The `seen` set always equals
the set of elements of the accumulated list, so membership is tested on
the accumulator itself. -/
def mergeStep (acc : List String) (v : PyVal) : List String :=
  match v with
  | .nonstr => acc
  | .str s =>
    let cleaned := pyStrip s
    if cleaned = "" ∨ cleaned ∈ acc then acc else acc ++ [cleaned]

/-- models.py `ExtractionContext.merge_unique` as a function on the
targeted list field: append unique non-empty stripped string values,
preserving order. -/
def mergeUniqueList (existing : List String) (values : List PyVal) : List String :=
  values.foldl mergeStep existing

/-- models.py `ExtractionContext.merge_unique` (valid field names; invalid
names never reach it through `add_candidates`). -/
def ExtractionContext.merge_unique (ctx : ExtractionContext) (field_name : String)
    (values : List PyVal) : ExtractionContext :=
  ctx.setField field_name (mergeUniqueList (ctx.getField field_name) values)

/-- models.py `ExtractionContext.add_candidates`: raises `ValueError` for a
field name outside `_CANDIDATE_FIELDS` (the `.error` case carries the
receiver state at the raise, which precedes any mutation), otherwise
delegates to `merge_unique`. -/
def ExtractionContext.add_candidates (ctx : ExtractionContext) (field_name : String)
    (values : List PyVal) : Except (String × ExtractionContext) ExtractionContext :=
  if field_name ∈ CANDIDATE_FIELDS then .ok (ctx.merge_unique field_name values)
  else .error ("Unknown candidate field: " ++ field_name, ctx)

/-- The option-merging loop of models.py `add_option_group` (lines 194-198):
append each incoming option whose value string is not yet present. -/
def OptionGroup.mergeOptions (existing incoming : OptionGroup) : OptionGroup :=
  { existing with
    options := incoming.options.foldl
      (fun acc opt => if opt.value ∈ acc.map OptionValue.value then acc else acc ++ [opt])
      existing.options }

/-- The group scan of models.py `add_option_group`: merge into the first
group with a case-insensitively equal dimension, else append the group. -/
def addGroupToList : List OptionGroup → OptionGroup → List OptionGroup
  | [], g => [g]
  | e :: rest, g =>
    if pyLower e.dimension = pyLower g.dimension then e.mergeOptions g :: rest
    else e :: addGroupToList rest g

/-- models.py `ExtractionContext.add_option_group`. -/
def ExtractionContext.add_option_group (ctx : ExtractionContext) (g : OptionGroup) :
    ExtractionContext :=
  { ctx with option_group_candidates := addGroupToList ctx.option_group_candidates g }

/-! ## Decoded JSON values (the dynamic payloads of `json.loads`) -/

/-- A decoded Python JSON value.  Integer literals decode to `int`; other
numeric literals decode to `float`, modelled by the exact rational value of
the literal (IEEE-754 rounding is not modelled; no audited claim evaluates
a float). -/
inductive Json where
  | null
  | bool (b : Bool)
  | int (n : Int)
  | float (q : ℚ)
  | str (s : String)
  | arr (elems : List Json)
  | obj (entries : List (String × Json))

/-- Python `dict.get` on an entries list (first matching key). -/
def jsonGet : List (String × Json) → String → Option Json
  | [], _ => none
  | (k, v) :: rest, target => if k = target then some v else jsonGet rest target

/-- Digits of the fractional part of `rem / den` (used by `pyFloatStr`). -/
def decDigitsLoop : Nat → Nat → Nat → List Char
  | 0, _, _ => []
  | _, 0, _ => []
  | fuel + 1, rem, den =>
    Char.ofNat (48 + rem * 10 / den) :: decDigitsLoop fuel (rem * 10 % den) den

/-- Python `str(float)` on the exact decimal value of a JSON float literal
(the IEEE-754 shortest-roundtrip repr is not modelled; no audited claim
renders a float). -/
def pyFloatStr (q : ℚ) : String :=
  let sign := if q < 0 then "-" else ""
  let n := q.num.natAbs
  let d := q.den
  if n % d = 0 then sign ++ toString (n / d) ++ ".0"
  else sign ++ toString (n / d) ++ "." ++ ⟨decDigitsLoop 32 (n % d) d⟩

mutual

/-- mapping.py `_flatten_scalar_strings`: strings pass through; ints and
floats stringify (`bool` is an `int` subclass in Python, giving
`"True"`/`"False"`); a dict contributes, in the fixed order
`name`/`value`/`url`/`text`, each of those entries whose value is a string;
lists recurse element-wise; anything else contributes nothing. -/
def flattenScalarStrings : Json → List String
  | .str s => [s]
  | .int n => [toString n]
  | .float q => [pyFloatStr q]
  | .bool b => [if b then "True" else "False"]
  | .obj entries =>
      ["name", "value", "url", "text"].filterMap fun k =>
        match jsonGet entries k with
        | some (.str s) => some s
        | _ => none
  | .arr elems => flattenScalarList elems
  | .null => []

/-- Element-wise flattening of a JSON list. -/
def flattenScalarList : List Json → List String
  | [] => []
  | e :: es => flattenScalarStrings e ++ flattenScalarList es

end

mutual

/-- mapping.py `_collect_values_for_key`: walk the whole structure; for
every dict entry whose key equals the target, flatten its value, then keep
walking inside the value. -/
def collectValuesForKey (target : String) : Json → List String
  | .obj entries => collectForEntries target entries
  | .arr elems => collectForList target elems
  | _ => []

/-- The dict part of the walk, in entry order. -/
def collectForEntries (target : String) : List (String × Json) → List String
  | [] => []
  | (k, v) :: rest =>
    (if k = target then flattenScalarStrings v else [])
      ++ collectValuesForKey target v ++ collectForEntries target rest

/-- The list part of the walk, in element order. -/
def collectForList (target : String) : List Json → List String
  | [] => []
  | e :: es => collectValuesForKey target e ++ collectForList target es

end

/-! ## json.loads (the strict JSON subset the code feeds it) -/

/-- JSON whitespace accepted between tokens by `json.loads`. -/
def jsonIsWs (c : Char) : Bool := c = ' ' || c = '\t' || c = '\n' || c = '\x0d'

/-- Hex digit value. -/
def hexVal (c : Char) : Option Nat :=
  if '0' ≤ c ∧ c ≤ '9' then some (c.toNat - 48)
  else if 'a' ≤ c ∧ c ≤ 'f' then some (c.toNat - 87)
  else if 'A' ≤ c ∧ c ≤ 'F' then some (c.toNat - 55)
  else none

/-- Four hex digits to a code unit. -/
def hex4 (a b c d : Char) : Option Nat := do
  let x1 ← hexVal a
  let x2 ← hexVal b
  let x3 ← hexVal c
  let x4 ← hexVal d
  some (((x1 * 16 + x2) * 16 + x3) * 16 + x4)

/-- JSON string body after the opening quote.  Escapes follow json.loads in
strict mode: raw control characters are rejected; `\uXXXX` escapes combine
surrogate pairs (a lone surrogate, which Python would keep, has no `Char`
representation and is rejected — unexercised by the audited inputs). -/
def parseJsonStringLoop : Nat → List Char → List Char → Option (String × List Char)
  | 0, _, _ => none
  | _ + 1, _, [] => none
  | fuel + 1, acc, c :: rest =>
    if c = '"' then some (⟨acc.reverse⟩, rest)
    else if c = '\\' then
      match rest with
      | '"' :: r => parseJsonStringLoop fuel ('"' :: acc) r
      | '\\' :: r => parseJsonStringLoop fuel ('\\' :: acc) r
      | '/' :: r => parseJsonStringLoop fuel ('/' :: acc) r
      | 'b' :: r => parseJsonStringLoop fuel ('\x08' :: acc) r
      | 'f' :: r => parseJsonStringLoop fuel ('\x0c' :: acc) r
      | 'n' :: r => parseJsonStringLoop fuel ('\n' :: acc) r
      | 'r' :: r => parseJsonStringLoop fuel ('\x0d' :: acc) r
      | 't' :: r => parseJsonStringLoop fuel ('\t' :: acc) r
      | 'u' :: h1 :: h2 :: h3 :: h4 :: r =>
        (match hex4 h1 h2 h3 h4 with
        | none => none
        | some cp =>
          if cp < 0xd800 ∨ (0xdfff < cp ∧ cp < 0x110000) then
            parseJsonStringLoop fuel (Char.ofNat cp :: acc) r
          else
            match r with
            | '\\' :: 'u' :: g1 :: g2 :: g3 :: g4 :: r2 =>
              (match hex4 g1 g2 g3 g4 with
              | none => none
              | some cp2 =>
                if 0xd800 ≤ cp ∧ cp ≤ 0xdbff ∧ 0xdc00 ≤ cp2 ∧ cp2 ≤ 0xdfff then
                  parseJsonStringLoop fuel
                    (Char.ofNat (0x10000 + (cp - 0xd800) * 0x400 + (cp2 - 0xdc00)) :: acc) r2
                else none)
            | _ => none)
      | _ => none
    else if c.toNat < 32 then none
    else parseJsonStringLoop fuel (c :: acc) rest

/-- One-or-more decimal digits, maximal munch. -/
def takeDigits1 (cs : List Char) : Option (List Char × List Char) :=
  match cs with
  | c :: _ => if c.isDigit then some (cs.takeWhile Char.isDigit, cs.dropWhile Char.isDigit)
              else none
  | [] => none

/-- Digit characters to a natural number. -/
def digitsToNat (ds : List Char) : Nat :=
  ds.foldl (fun acc c => acc * 10 + (c.toNat - 48)) 0

/-- Optional fraction part `(\.[0-9]+)?`. -/
def parseJsonFrac (cs : List Char) : Option (List Char × List Char) :=
  match cs with
  | '.' :: r => takeDigits1 r
  | _ => some ([], cs)

/-- Optional exponent part `([eE][+-]?[0-9]+)?`; the flag is the sign. -/
def parseJsonExp (cs : List Char) : Option (Bool × List Char × List Char) :=
  match cs with
  | 'e' :: r | 'E' :: r =>
    (match r with
     | '+' :: r2 => (takeDigits1 r2).map fun p => (false, p.1, p.2)
     | '-' :: r2 => (takeDigits1 r2).map fun p => (true, p.1, p.2)
     | _ => (takeDigits1 r).map fun p => (false, p.1, p.2))
  | _ => some (false, [], cs)

/-- The JSON number grammar of json.loads:
`-? (0 | [1-9][0-9]*) (\.[0-9]+)? ([eE][+-]?[0-9]+)?`.  An integer literal
decodes to `Json.int`; a fraction or exponent makes a `Json.float` holding
the exact rational value of the literal. -/
def parseJsonNumber (cs : List Char) : Option (Json × List Char) := do
  let (neg, cs1) := match cs with
    | '-' :: r => (true, r)
    | _ => (false, cs)
  let (intDs, cs2) ← takeDigits1 cs1
  if intDs.length > 1 ∧ intDs.headD '0' = '0' then none else
  let (fracDs, cs3) ← parseJsonFrac cs2
  let (expSign, expDs, cs4) ← parseJsonExp cs3
  if fracDs = [] ∧ expDs = [] then
    some (.int (if neg then -(digitsToNat intDs : Int) else (digitsToNat intDs : Int)), cs2)
  else
    let mantissa : ℚ :=
      (digitsToNat intDs : ℚ) + (digitsToNat fracDs : ℚ) / (10 : ℚ) ^ fracDs.length
    let expVal : ℤ := if expSign then -(digitsToNat expDs : Int) else (digitsToNat expDs : Int)
    some (.float ((if neg then -mantissa else mantissa) * (10 : ℚ) ^ expVal), cs4)

/-- Python dict insertion: a repeated key keeps its first position and
takes the new value. -/
def objInsert (entries : List (String × Json)) (k : String) (v : Json) :
    List (String × Json) :=
  match entries with
  | [] => [(k, v)]
  | (k0, v0) :: rest => if k0 = k then (k0, v) :: rest else (k0, v0) :: objInsert rest k v

mutual

/-- A JSON value, whitespace-tolerant, fuel-indexed (the fuel strictly
exceeds the nesting depth whenever it exceeds the input length).
`NaN`/`Infinity`, which json.loads also accepts, are outside the model
(nothing in the audited inputs uses them). -/
def parseJsonValue : Nat → List Char → Option (Json × List Char)
  | 0, _ => none
  | fuel + 1, cs0 =>
    match cs0.dropWhile jsonIsWs with
    | 'n' :: 'u' :: 'l' :: 'l' :: rest => some (.null, rest)
    | 't' :: 'r' :: 'u' :: 'e' :: rest => some (.bool true, rest)
    | 'f' :: 'a' :: 'l' :: 's' :: 'e' :: rest => some (.bool false, rest)
    | '"' :: rest =>
      (parseJsonStringLoop (rest.length + 1) [] rest).map fun p => (.str p.1, p.2)
    | '[' :: rest =>
      (match rest.dropWhile jsonIsWs with
       | ']' :: r => some (.arr [], r)
       | _ => parseJsonArrayItems fuel [] rest)
    | '{' :: rest =>
      (match rest.dropWhile jsonIsWs with
       | '}' :: r => some (.obj [], r)
       | _ => parseJsonObjectItems fuel [] rest)
    | cs => parseJsonNumber cs

/-- Comma-separated array elements up to the closing bracket. -/
def parseJsonArrayItems : Nat → List Json → List Char → Option (Json × List Char)
  | 0, _, _ => none
  | fuel + 1, acc, cs => do
    let (v, r1) ← parseJsonValue fuel cs
    match r1.dropWhile jsonIsWs with
    | ',' :: r2 => parseJsonArrayItems fuel (acc ++ [v]) r2
    | ']' :: r2 => some (.arr (acc ++ [v]), r2)
    | _ => none

/-- Comma-separated `"key": value` members up to the closing brace. -/
def parseJsonObjectItems : Nat → List (String × Json) → List Char → Option (Json × List Char)
  | 0, _, _ => none
  | fuel + 1, acc, cs =>
    match cs.dropWhile jsonIsWs with
    | '"' :: rest => do
      let (k, r1) ← parseJsonStringLoop (rest.length + 1) [] rest
      match r1.dropWhile jsonIsWs with
      | ':' :: r2 => do
        let (v, r3) ← parseJsonValue fuel r2
        (match r3.dropWhile jsonIsWs with
         | ',' :: r4 => parseJsonObjectItems fuel (objInsert acc k v) r4
         | '}' :: r4 => some (.obj (objInsert acc k v), r4)
         | _ => none)
      | _ => none
    | _ => none

end

/-- script_blob.py / structured_extraction.py `_safe_json_loads` semantics
of `json.loads` on the full input: the value must consume the whole string
up to trailing whitespace; any parse failure yields `none`. -/
def pyJsonLoads (s : String) : Option Json :=
  match parseJsonValue (s.data.length + 1) s.data with
  | some (v, rest) => if rest.dropWhile jsonIsWs = [] then some v else none
  | none => none

/-! ## Script blob extraction (src/backend/extract/script_blob.py) -/

/-- Regex `[A-Za-z0-9_]` (the explicit ASCII class used by
`_GLOBAL_ASSIGNMENT_RE`). -/
def isAsciiWordChar (c : Char) : Bool := c.isAlphanum || c = '_'

/-- Regex `[A-Za-z_$]` (identifier start of `_VAR_ASSIGNMENT_RE`). -/
def isVarIdentStart (c : Char) : Bool := c.isAlpha || c = '_' || c = '$'

/-- Regex `[A-Za-z0-9_$]` (identifier continuation of
`_VAR_ASSIGNMENT_RE`). -/
def isVarIdentChar (c : Char) : Bool := c.isAlphanum || c = '_' || c = '$'

/-- Regex `\s` (ASCII model; the script sources audited are ASCII). -/
def pyReIsSpace (c : Char) : Bool :=
  c = ' ' || c = '\t' || c = '\n' || c = '\x0d' || c = '\x0b' || c = '\x0c'

/-- Consume an exact literal, returning the rest. -/
def takeLiteral : List Char → List Char → Option (List Char)
  | [], cs => some cs
  | _ :: _, [] => none
  | p :: ps, c :: cs => if c = p then takeLiteral ps cs else none

/-- Consume one-or-more characters of a class, maximal munch. -/
def takeClassPlus (p : Char → Bool) (cs : List Char) : Option (List Char) :=
  match cs with
  | c :: rest => if p c then some (rest.dropWhile p) else none
  | [] => none

/-- Regex `(?:[A-Za-z0-9_]+\.)*[A-Za-z0-9_]+`: a dotted identifier chain,
greedy with backtracking — a trailing dot not followed by another
identifier is left unconsumed. -/
def takeDottedChain : Nat → List Char → Option (List Char)
  | 0, _ => none
  | fuel + 1, cs =>
    match takeClassPlus isAsciiWordChar cs with
    | none => none
    | some rest =>
      match rest with
      | '.' :: rest2 =>
        (match takeDottedChain fuel rest2 with
         | some r => some r
         | none => some rest)
      | _ => some rest

/-- Match of `_GLOBAL_ASSIGNMENT_RE`
(`(window|self|globalThis)\.(?:[A-Za-z0-9_]+\.)*[A-Za-z0-9_]+\s*=`)
anchored at the head of `cs`; returns the match length.  Alternatives are
tried in the pattern's order. -/
def matchGlobalAssignAt (cs : List Char) : Option Nat :=
  let tryRoot := fun (lit : String) =>
    match takeLiteral lit.data cs with
    | none => none
    | some r1 =>
      match takeDottedChain (r1.length + 1) r1 with
      | none => none
      | some r2 =>
        match r2.dropWhile pyReIsSpace with
        | '=' :: r4 => some (cs.length - r4.length)
        | _ => none
  match tryRoot "window." with
  | some n => some n
  | none =>
    match tryRoot "self." with
    | some n => some n
    | none => tryRoot "globalThis."

/-- Match of `_VAR_ASSIGNMENT_RE`
(`(?:var|let|const)\s+[A-Za-z_$][A-Za-z0-9_$]*\s*=`) anchored at the head
of `cs`; returns the match length. -/
def matchVarAssignAt (cs : List Char) : Option Nat :=
  let tryKw := fun (kw : String) =>
    match takeLiteral kw.data cs with
    | none => none
    | some r1 =>
      match r1 with
      | c :: _ =>
        if pyReIsSpace c then
          match r1.dropWhile pyReIsSpace with
          | c2 :: rest2 =>
            if isVarIdentStart c2 then
              match (rest2.dropWhile isVarIdentChar).dropWhile pyReIsSpace with
              | '=' :: r4 => some (cs.length - r4.length)
              | _ => none
            else none
          | [] => none
        else none
      | [] => none
  match tryKw "var" with
  | some n => some n
  | none =>
    match tryKw "let" with
    | some n => some n
    | none => tryKw "const"

/-- `pattern.search(text, idx)`: the leftmost match at or after `idx`,
returned as its `(start, end)` positions. -/
def reSearchFrom (matchAt : List Char → Option Nat) (arr : List Char) :
    Nat → Nat → Option (Nat × Nat)
  | 0, _ => none
  | fuel + 1, i =>
    if i > arr.length then none
    else
      match matchAt (arr.drop i) with
      | some len => some (i, i + len)
      | none => reSearchFrom matchAt arr fuel (i + 1)

/-- script_blob.py `_next_json_start`: first `{` or `[` at or after
`start_idx`, abandoning at a `;` or the end (`-1` is modelled as `none`). -/
def nextJsonStart (arr : List Char) : Nat → Nat → Option Nat
  | 0, _ => none
  | fuel + 1, i =>
    match arr.get? i with
    | none => none
    | some c =>
      if c = '{' || c = '[' then some i
      else if c = ';' then none
      else nextJsonStart arr fuel (i + 1)

/-- One step of the balanced-bracket scan of `_extract_balanced_json`:
inside a string the escape flag and quote terminate/continue the string
and brackets are ignored; outside, a quote opens a string and only the
opening/closing character of the scan adjusts the depth. -/
structure EbjState where
  depth : Nat
  inString : Bool
  escaped : Bool
deriving DecidableEq

/-- Classification of one scanned character (no early return). -/
def ebjStep (opening closing : Char) (st : EbjState) (ch : Char) : EbjState :=
  if st.inString then
    if st.escaped then { st with escaped := false }
    else if ch = '\\' then { st with escaped := true }
    else if ch = '"' then { st with inString := false }
    else st
  else if ch = '"' then { st with inString := true }
  else if ch = opening then { st with depth := st.depth + 1 }
  else if ch = closing then { st with depth := st.depth - 1 }
  else st

/-- The scan loop of script_blob.py `_extract_balanced_json` from position
`i`, returning the extracted span and the resume index, or
`(none, len(text))` when the scan never closes. -/
def ebjLoop (arr : List Char) (opening closing : Char) (startIdx : Nat) :
    Nat → Nat → EbjState → Option (List Char) × Nat
  | 0, _, _ => (none, arr.length)
  | fuel + 1, i, st =>
    match arr.get? i with
    | none => (none, arr.length)
    | some ch =>
      let st2 := ebjStep opening closing st ch
      if ¬ st.inString ∧ ch = closing ∧ st.depth = 1 then
        (some ((arr.drop startIdx).take (i + 1 - startIdx)), i + 1)
      else ebjLoop arr opening closing startIdx fuel (i + 1) st2

/-- script_blob.py `_extract_balanced_json`. -/
def extractBalancedJson (arr : List Char) (startIdx : Nat) :
    Option (List Char) × Nat :=
  match arr.get? startIdx with
  | none => (none, arr.length)
  | some opening =>
    let closing := if opening = '{' then '}' else ']'
    ebjLoop arr opening closing startIdx (arr.length + 1) startIdx ⟨0, false, false⟩

/-- The per-pattern `while True` loop of `iter_assigned_json_blobs`,
threading the cross-pattern `seen_ranges` set and the payload list. -/
def iterBlobsLoop (matchAt : List Char → Option Nat) (arr : List Char) :
    Nat → Nat → List (Nat × Nat) × List Json → List (Nat × Nat) × List Json
  | 0, _, st => st
  | fuel + 1, idx, (seen, payloads) =>
    match reSearchFrom matchAt arr (arr.length + 1) idx with
    | none => (seen, payloads)
    | some (_, mend) =>
      match nextJsonStart arr (arr.length + 1) mend with
      | none => iterBlobsLoop matchAt arr fuel mend (seen, payloads)
      | some jstart =>
        match extractBalancedJson arr jstart with
        | (some extracted, endIdx) =>
          if (jstart, endIdx) ∈ seen then
            iterBlobsLoop matchAt arr fuel endIdx (seen, payloads)
          else
            (match pyJsonLoads ⟨extracted⟩ with
             | some payload =>
               iterBlobsLoop matchAt arr fuel endIdx
                 (seen ++ [(jstart, endIdx)], payloads ++ [payload])
             | none =>
               iterBlobsLoop matchAt arr fuel endIdx
                 (seen ++ [(jstart, endIdx)], payloads))
        | (none, endIdx) => iterBlobsLoop matchAt arr fuel endIdx (seen, payloads)

/-- script_blob.py `iter_assigned_json_blobs`: both assignment patterns in
order, deduplicated by source range. -/
def iterAssignedJsonBlobs (body : String) : List Json :=
  let arr := body.data
  let st1 := iterBlobsLoop matchGlobalAssignAt arr (arr.length + 2) 0 ([], [])
  let st2 := iterBlobsLoop matchVarAssignAt arr (arr.length + 2) 0 st1
  st2.2

/-! ## HTML signal streams (src/backend/extract/html_signals.py) and the
entry point of structured extraction
(src/backend/extract/structured_extraction.py) -/

/-- html_signals.py `ScriptSignal`. -/
structure ScriptSignal where
  attrs : List (String × String)
  body : String
deriving DecidableEq

/-- html_signals.py `MetaSignal`. -/
structure MetaSignal where
  key : String
  content : String
deriving DecidableEq

/-- html_signals.py `DataJsonSignal`. -/
structure DataJsonSignal where
  key : String
  payload : Json

/-- One component of the Python tuple returned by `extract_html_signals`;
the sum type lets the heterogeneous tuple be modelled as a list, which is
what Python's sequence-unpacking protocol iterates. -/
inductive SignalStream where
  | scripts (xs : List ScriptSignal)
  | metas (xs : List MetaSignal)
  | dataJson (xs : List DataJsonSignal)
  | colors (xs : List String)

/-- The tuple value built by the `return` of html_signals.py
`extract_html_signals` (line 96): a 4-tuple
`(parser.scripts, parser.meta_tags, parser.data_json,
parser.data_color_values)`, whatever the parser produced for the page. -/
def extractHtmlSignalsTuple (scripts : List ScriptSignal) (metas : List MetaSignal)
    (dataJson : List DataJsonSignal) (colors : List String) : List SignalStream :=
  [.scripts scripts, .metas metas, .dataJson dataJson, .colors colors]

/-- Python sequence unpacking `a, b = t` into exactly two targets: succeeds
only when the sequence has exactly two items, otherwise raises
`ValueError`, independent of the item values. -/
def pyUnpack2 {α : Type} (components : List α) : Except String (α × α) :=
  match components with
  | [a, b] => .ok (a, b)
  | _ :: _ :: _ :: _ => .error "too many values to unpack (expected 2)"
  | _ => .error "not enough values to unpack (expected 2)"

/-- The first statements of structured_extraction.py
`extract_structured_signals` (lines 62-66) up to
`scripts, meta_tags = extract_html_signals(html_text)`: the unpack is the
first point at which the call can raise, and everything after it
(`_extract_json_ld`, `_extract_meta_tags`, `_extract_script_blobs`) runs
only if the unpack succeeds.  The continuation is abstracted as `rest`
because no control path reaches it on the 4-tuple the scanner returns. -/
def extractStructuredSignalsFrom
    (rest : SignalStream × SignalStream → ExtractionContext)
    (signals : List SignalStream) : Except String ExtractionContext :=
  match pyUnpack2 signals with
  | .ok pair => .ok (rest pair)
  | .error e => .error e

/-! ## Taxonomy prefilter (src/backend/taxonomy/prefilter.py) -/

/-- Lower-case letters and digits: the `[a-z0-9]+` token pattern (applied
after lower-casing). -/
def isLowerAlnum (c : Char) : Bool := ('a' ≤ c ∧ c ≤ 'z') || c.isDigit

/-- Maximal `[a-z0-9]+` runs of a character list, in order
(`_TOKEN_PATTERN.findall`). -/
def alnumRuns : Nat → List Char → List (List Char)
  | 0, _ => []
  | _ + 1, [] => []
  | fuel + 1, c :: cs =>
    if isLowerAlnum c then
      (c :: cs).takeWhile isLowerAlnum :: alnumRuns fuel ((c :: cs).dropWhile isLowerAlnum)
    else alnumRuns fuel cs

/-- prefilter.py `_STOPWORDS`. -/
def STOPWORDS : List String :=
  ["a", "an", "and", "at", "by", "for", "from", "in", "of", "on", "or",
   "the", "to", "with"]

/-- prefilter.py `_tokenize`: lower-case, split into alphanumeric runs,
drop stopwords and single-character tokens. -/
def pfTokenize (value : String) : List String :=
  ((alnumRuns ((pyLower value).data.length + 1) (pyLower value).data).map
    fun r => (⟨r⟩ : String)).filter
      fun t => t ∉ STOPWORDS ∧ t.length > 1

/-- prefilter.py `_build_query_terms`: first 3 title, 2 brand and 3
category-hint candidates, tokenized and concatenated. -/
def buildQueryTerms (ctx : ExtractionContext) : List String :=
  ((ctx.title_candidates.take 3 ++ ctx.brand_candidates.take 2
      ++ ctx.category_hint_candidates.take 3).map pfTokenize).flatten

/-- prefilter.py `_materialize_categories`: `None` means the module-level
`VALID_CATEGORIES` set (passed here explicitly as `validCategories`, since
the categories file is loaded at import time); an explicit list is
stripped, emptied of blanks, deduplicated and sorted. -/
def materializeCategories (validCategories : List String)
    (categories : Option (List String)) : List String :=
  match categories with
  | none => pySortStrings (dedupFirst validCategories)
  | some cats => pySortStrings (dedupFirst ((cats.map pyStrip).filter (· ≠ "")))

/-- `category.split(" > ", 1)[0]`: the text before the first `" > "`. -/
def firstSegmentChars : List Char → List Char
  | [] => []
  | ' ' :: '>' :: ' ' :: _ => []
  | c :: rest => c :: firstSegmentChars rest

/-- The top-level taxonomy segment of a label. -/
def firstSegment (s : String) : String := ⟨firstSegmentChars s.data⟩

/-- One fallback pass of prefilter.py `_fallback_categories`: walk `items`,
appending each value not yet in `ordered` (the `seen` set always holds
exactly the elements of `ordered`), returning as soon as `top_k` entries
are collected. -/
def fbLoop (k : Nat) : List String → List String → List String
  | [], ordered => ordered
  | x :: rest, ordered =>
    if x ∈ ordered then fbLoop k rest ordered
    else if (ordered ++ [x]).length ≥ k then ordered ++ [x]
    else fbLoop k rest (ordered ++ [x])

/-- prefilter.py `_fallback_categories`: pass 1 keeps one representative
per distinct top-level segment in vocabulary order; pass 2 fills remaining
slots with full labels not already used. -/
def fallbackCategories (categories : List String) (top_k : Int) : List String :=
  if top_k ≤ 0 then []
  else
    let k := top_k.toNat
    let ordered1 := fbLoop k (categories.map firstSegment) []
    if ordered1.length ≥ k then ordered1
    else fbLoop k categories ordered1

/-- prefilter.py `_score_categories`: one BM25 score per label (the fitted
model is the `scores` argument — `BM25Okapi(tokenized).get_scores`), zipped
with the labels and sorted by descending score, ties by ascending label. -/
def scoreCategories (scores : List ℚ) (categories : List String) :
    List (ℚ × String) :=
  (scores.zip categories).insertionSort
    fun a b => a.1 > b.1 ∨ (a.1 = b.1 ∧ a.2 ≤ b.2)

/-- prefilter.py `_collect_unique_categories`. -/
def collectUniqueCategories : List (ℚ × String) → Nat → List String → List String
  | [], _, unique => unique
  | (_, c) :: rest, limit, unique =>
    if c ∈ unique then collectUniqueCategories rest limit unique
    else if (unique ++ [c]).length ≥ limit then unique ++ [c]
    else collectUniqueCategories rest limit (unique ++ [c])

/-- prefilter.py `select_category_candidates`.  The BM25 scoring model is
abstracted as `bm25Scores` (corpus token lists and query terms to one
score per document, in corpus order); every theorem about this function
quantifies over it, so the results hold for the fitted `BM25Okapi` model
in particular. -/
def selectCategoryCandidates
    (bm25Scores : List (List String) → List String → List ℚ)
    (validCategories : List String) (ctx : ExtractionContext)
    (categories : Option (List String)) (top_k : Int) : List String :=
  if top_k ≤ 0 then []
  else
    let cats := materializeCategories validCategories categories
    if cats = [] then []
    else
      let queryTerms := buildQueryTerms ctx
      if queryTerms = [] then fallbackCategories cats top_k
      else
        let scored := scoreCategories (bm25Scores (cats.map pfTokenize) queryTerms) cats
        match scored with
        | [] => fallbackCategories cats top_k
        | (s, _) :: _ =>
          if s ≤ 0 then fallbackCategories cats top_k
          else collectUniqueCategories scored (min top_k.toNat cats.length) []

/-! ## SHA-256 (hashlib.sha256, FIPS 180-4), over `Nat` with explicit
32-bit truncation -/

/-- Truncation to 32 bits. -/
def w32 (n : Nat) : Nat := n % 4294967296

/-- 32-bit right rotation. -/
def rotr32 (k n : Nat) : Nat := w32 ((n >>> k) ||| (n <<< (32 - k)))

/-- 32-bit complement. -/
def not32 (n : Nat) : Nat := n ^^^ 4294967295

/-- The 64 SHA-256 round constants. -/
def K256 : List Nat :=
  [1116352408, 1899447441, 3049323471, 3921009573, 961987163, 1508970993,
   2453635748, 2870763221, 3624381080, 310598401, 607225278, 1426881987,
   1925078388, 2162078206, 2614888103, 3248222580, 3835390401, 4022224774,
   264347078, 604807628, 770255983, 1249150122, 1555081692, 1996064986,
   2554220882, 2821834349, 2952996808, 3210313671, 3336571891, 3584528711,
   113926993, 338241895, 666307205, 773529912, 1294757372, 1396182291,
   1695183700, 1986661051, 2177026350, 2456956037, 2730485921, 2820302411,
   3259730800, 3345764771, 3516065817, 3600352804, 4094571909, 275423344,
   430227734, 506948616, 659060556, 883997877, 958139571, 1322822218,
   1537002063, 1747873779, 1955562222, 2024104815, 2227730452, 2361852424,
   2428436474, 2756734187, 3204031479, 3329325298]

/-- The initial SHA-256 hash state. -/
def H256 : List Nat :=
  [1779033703, 3144134277, 1013904242, 2773480762, 1359893119, 2600822924,
   528734635, 1541459225]

/-- UTF-8 encoding of one scalar value. -/
def utf8EncodeChar (c : Char) : List Nat :=
  let n := c.toNat
  if n < 0x80 then [n]
  else if n < 0x800 then [0xc0 ||| (n >>> 6), 0x80 ||| (n &&& 0x3f)]
  else if n < 0x10000 then
    [0xe0 ||| (n >>> 12), 0x80 ||| ((n >>> 6) &&& 0x3f), 0x80 ||| (n &&& 0x3f)]
  else
    [0xf0 ||| (n >>> 18), 0x80 ||| ((n >>> 12) &&& 0x3f),
     0x80 ||| ((n >>> 6) &&& 0x3f), 0x80 ||| (n &&& 0x3f)]

/-- Python `str.encode("utf-8")`. -/
def utf8Encode (s : String) : List Nat := (s.data.map utf8EncodeChar).flatten

/-- Big-endian bytes of a value, fixed width. -/
def beBytes : Nat → Nat → List Nat
  | 0, _ => []
  | k + 1, v => beBytes k (v / 256) ++ [v % 256]

/-- SHA-256 message padding: `0x80`, zeros to 56 mod 64, 8-byte big-endian
bit length. -/
def sha256Pad (msg : List Nat) : List Nat :=
  msg ++ [0x80] ++ List.replicate ((119 - msg.length % 64) % 64) 0
      ++ beBytes 8 (msg.length * 8)

/-- Big-endian 32-bit words of a byte list. -/
def bytesToWords : List Nat → List Nat
  | b0 :: b1 :: b2 :: b3 :: rest =>
    (((b0 * 256 + b1) * 256 + b2) * 256 + b3) :: bytesToWords rest
  | _ => []

/-- SHA-256 sigma functions. -/
def smallSigma0 (x : Nat) : Nat := rotr32 7 x ^^^ rotr32 18 x ^^^ (x >>> 3)

/-- See `smallSigma0`. -/
def smallSigma1 (x : Nat) : Nat := rotr32 17 x ^^^ rotr32 19 x ^^^ (x >>> 10)

/-- See `smallSigma0`. -/
def bigSigma0 (x : Nat) : Nat := rotr32 2 x ^^^ rotr32 13 x ^^^ rotr32 22 x

/-- See `smallSigma0`. -/
def bigSigma1 (x : Nat) : Nat := rotr32 6 x ^^^ rotr32 11 x ^^^ rotr32 25 x

/-- Message-schedule extension from 16 to 64 words. -/
def sha256Extend : Nat → List Nat → List Nat
  | 0, w => w
  | fuel + 1, w =>
    if w.length ≥ 64 then w
    else
      sha256Extend fuel (w ++ [w32 (w.getD (w.length - 16) 0
        + smallSigma0 (w.getD (w.length - 15) 0)
        + w.getD (w.length - 7) 0
        + smallSigma1 (w.getD (w.length - 2) 0))])

/-- One compression round on the 8-word working state. -/
def sha256Round (state : List Nat) (ki wi : Nat) : List Nat :=
  match state with
  | [a, b, c, d, e, f, g, h] =>
    let t1 := w32 (h + bigSigma1 e + ((e &&& f) ^^^ (not32 e &&& g)) + ki + wi)
    let t2 := w32 (bigSigma0 a + ((a &&& b) ^^^ (a &&& c) ^^^ (b &&& c)))
    [w32 (t1 + t2), a, b, c, w32 (d + t1), e, f, g]
  | s => s

/-- Compression of one 64-byte block into the hash state. -/
def sha256Compress (hstate : List Nat) (block : List Nat) : List Nat :=
  let w := sha256Extend 64 (bytesToWords block)
  let st := (K256.zip w).foldl (fun s kw => sha256Round s kw.1 kw.2) hstate
  (hstate.zip st).map fun p => w32 (p.1 + p.2)

/-- 64-byte chunks of a list. -/
def chunksOf64 : Nat → List Nat → List (List Nat)
  | 0, _ => []
  | _ + 1, [] => []
  | fuel + 1, l => l.take 64 :: chunksOf64 fuel (l.drop 64)

/-- Lower-case hex digit. -/
def hexDigitChar (n : Nat) : Char :=
  if n < 10 then Char.ofNat (48 + n) else Char.ofNat (87 + n)

/-- Eight hex digits of a 32-bit word, most significant first. -/
def toHex8 (n : Nat) : List Char :=
  (List.range 8).map fun i => hexDigitChar ((n >>> (28 - 4 * i)) &&& 15)

/-- `hashlib.sha256(bytes).hexdigest()`. -/
def sha256Hex (msg : List Nat) : String :=
  ⟨(((chunksOf64 (msg.length / 64 + 2) (sha256Pad msg)).foldl sha256Compress H256).map
      toHex8).flatten⟩

/-! ## difflib.SequenceMatcher(None, a, b).ratio() over character lists -/

/-- difflib `__chain_b` with `isjunk=None`: the ascending indices of `c` in
`b`; when the autojunk heuristic fires (`len(b) >= 200`), indices of
"popular" elements (more than `len(b)//100 + 1` occurrences) are dropped.
The junk set itself is empty, so the junk-extension loops of
`find_longest_match` never fire and are omitted below. -/
def smB2j (b : List Char) (c : Char) : List Nat :=
  let idxs := (List.range b.length).filter fun i => b.get? i == some c
  if b.length ≥ 200 ∧ idxs.length > b.length / 100 + 1 then [] else idxs

/-- The running best block of `find_longest_match`. -/
structure SmBest where
  besti : Nat
  bestj : Nat
  bestsize : Nat
deriving DecidableEq

/-- `j2len.get(j, 0)` on an association list. -/
def j2Get (m : List (Nat × Nat)) (j : Nat) : Nat :=
  match m.find? (fun p => p.1 == j) with
  | some p => p.2
  | none => 0

/-- The inner loop of `find_longest_match`: for one position `i` of `a`,
walk the candidate `j` positions, building the new `j2len` table and
updating the best block (`j2len.get(j-1, 0)` is `0` when `j = 0`, matching
Python's `get(-1, 0)`). -/
def flmInner (i : Nat) (j2len : List (Nat × Nat)) :
    List Nat → List (Nat × Nat) → SmBest → List (Nat × Nat) × SmBest
  | [], newj2len, best => (newj2len, best)
  | j :: rest, newj2len, best =>
    let k := (if j = 0 then 0 else j2Get j2len (j - 1)) + 1
    flmInner i j2len rest (newj2len ++ [(j, k)])
      (if k > best.bestsize then ⟨i + 1 - k, j + 1 - k, k⟩ else best)

/-- The outer dynamic-programming loop of `find_longest_match` over
`i ∈ [alo, ahi)`. -/
def flmLoop (b2jf : Char → List Nat) (a : List Char) (blo bhi ahi : Nat) :
    Nat → Nat → List (Nat × Nat) → SmBest → SmBest
  | 0, _, _, best => best
  | fuel + 1, i, j2len, best =>
    if i ≥ ahi then best
    else
      let js := (b2jf (a.getD i ' ')).filter fun j => decide (blo ≤ j) && decide (j < bhi)
      let (newj2len, best2) := flmInner i j2len js [] best
      flmLoop b2jf a blo bhi ahi fuel (i + 1) newj2len best2

/-- The leftward non-junk extension loop of `find_longest_match`. -/
def flmExtendLeft (a b : List Char) (alo blo : Nat) : Nat → SmBest → SmBest
  | 0, best => best
  | fuel + 1, best =>
    if best.besti > alo ∧ best.bestj > blo ∧
        a.get? (best.besti - 1) = b.get? (best.bestj - 1) then
      flmExtendLeft a b alo blo fuel ⟨best.besti - 1, best.bestj - 1, best.bestsize + 1⟩
    else best

/-- The rightward non-junk extension loop of `find_longest_match`. -/
def flmExtendRight (a b : List Char) (ahi bhi : Nat) : Nat → SmBest → SmBest
  | 0, best => best
  | fuel + 1, best =>
    if best.besti + best.bestsize < ahi ∧ best.bestj + best.bestsize < bhi ∧
        a.get? (best.besti + best.bestsize) = b.get? (best.bestj + best.bestsize) then
      flmExtendRight a b ahi bhi fuel ⟨best.besti, best.bestj, best.bestsize + 1⟩
    else best

/-- difflib `find_longest_match` on `a[alo:ahi]` / `b[blo:bhi]` (empty junk
set: the two junk-extension loops are identically skipped). -/
def findLongestMatch (b2jf : Char → List Nat) (a b : List Char)
    (alo ahi blo bhi : Nat) : SmBest :=
  let best := flmLoop b2jf a blo bhi ahi (ahi + 1 - alo) alo [] ⟨alo, blo, 0⟩
  let best2 := flmExtendLeft a b alo blo (best.besti + 1) best
  flmExtendRight a b ahi bhi (ahi + 1) best2

/-- The queue-driven region loop of difflib `get_matching_blocks`.  Python
pushes the left then the right sub-region and pops from the end of the
list, so the model pushes the right then the left onto the head. -/
def gmbLoop (b2jf : Char → List Nat) (a b : List Char) :
    Nat → List (Nat × Nat × Nat × Nat) → List (Nat × Nat × Nat) →
      List (Nat × Nat × Nat)
  | 0, _, acc => acc
  | _ + 1, [], acc => acc
  | fuel + 1, (alo, ahi, blo, bhi) :: qrest, acc =>
    let m := findLongestMatch b2jf a b alo ahi blo bhi
    if m.bestsize = 0 then gmbLoop b2jf a b fuel qrest acc
    else
      let q1 := if alo < m.besti ∧ blo < m.bestj
        then (alo, m.besti, blo, m.bestj) :: qrest else qrest
      let q2 := if m.besti + m.bestsize < ahi ∧ m.bestj + m.bestsize < bhi
        then (m.besti + m.bestsize, ahi, m.bestj + m.bestsize, bhi) :: q1 else q1
      gmbLoop b2jf a b fuel q2 (acc ++ [(m.besti, m.bestj, m.bestsize)])

/-- Ascending lexicographic sort of the collected blocks
(`matching_blocks.sort()`). -/
def sortBlocks (l : List (Nat × Nat × Nat)) : List (Nat × Nat × Nat) :=
  l.insertionSort fun x y =>
    x.1 < y.1 ∨ (x.1 = y.1 ∧ (x.2.1 < y.2.1 ∨ (x.2.1 = y.2.1 ∧ x.2.2 ≤ y.2.2)))

/-- The adjacent-block collapse loop of `get_matching_blocks`. -/
def collapseBlocks : List (Nat × Nat × Nat) → Nat × Nat × Nat →
    List (Nat × Nat × Nat) → List (Nat × Nat × Nat)
  | [], (i1, j1, k1), acc => if k1 ≠ 0 then acc ++ [(i1, j1, k1)] else acc
  | (i2, j2, k2) :: rest, (i1, j1, k1), acc =>
    if i1 + k1 = i2 ∧ j1 + k1 = j2 then collapseBlocks rest (i1, j1, k1 + k2) acc
    else collapseBlocks rest (i2, j2, k2)
      (if k1 ≠ 0 then acc ++ [(i1, j1, k1)] else acc)

/-- difflib `get_matching_blocks`, terminated by the `(la, lb, 0)` dummy. -/
def getMatchingBlocks (a b : List Char) : List (Nat × Nat × Nat) :=
  let blocks := gmbLoop (smB2j b) a b ((a.length + b.length + 2) * 2)
    [(0, a.length, 0, b.length)] []
  collapseBlocks (sortBlocks blocks) (0, 0, 0) [] ++ [(a.length, b.length, 0)]

/-- difflib `SequenceMatcher(None, a, b).ratio()`:
`2 * M / (len(a) + len(b))`, and `1.0` for two empty sequences. -/
def seqRatio (a b : List Char) : ℚ :=
  let msum := ((getMatchingBlocks a b).map fun t => t.2.2).sum
  if a.length + b.length ≠ 0 then
    2 * (msum : ℚ) / ((a.length : ℚ) + (b.length : ℚ))
  else 1

/-! ## Identity resolver (src/backend/identity/resolver.py) -/

/-- models.py `Price`. -/
structure Price where
  price : ℚ
  currency : String
  compare_at_price : Option ℚ := none
deriving DecidableEq

/-- models.py `Merchant`. -/
structure Merchant where
  name : String
  merchant_id : Option String := none
deriving DecidableEq

/-- models.py `Offer`. -/
structure Offer where
  merchant : Merchant
  price : Price
  availability : Option String := none
  shipping : Option String := none
  promo : Option String := none
  source_url : Option String := none
deriving DecidableEq

/-- models.py `Variant`. -/
structure Variant where
  name : String
  attributes : List (String × String) := []
  price : Option Price := none
  availability : Option String := none
deriving DecidableEq

/-- A value of a `MatchEvidence.details` map: the code stores either a list
of code strings or a single string. -/
inductive DetailVal where
  | strs (xs : List String)
  | txt (v : String)
deriving DecidableEq

/-- models.py `MatchEvidence`. -/
structure MatchEvidence where
  signal : String
  score : ℚ
  matched : Bool
  details : List (String × DetailVal) := []
deriving DecidableEq

/-- models.py `MatchDecision`. -/
structure MatchDecision where
  candidate_product_id : Option String
  matched : Bool
  confidence : ℚ
  threshold : ℚ
  evidence : List MatchEvidence := []
deriving DecidableEq

/-- models.py `Product`.  `category` is the taxonomy label string (the
closed-vocabulary validation of `Category` happens at construction and is
not consulted by the resolver). -/
structure Product where
  name : String
  price : Price
  description : String
  key_features : List String := []
  image_urls : List String := []
  video_url : Option String := none
  category : String
  brand : String
  colors : List String := []
  variants : List Variant := []
  offers : List Offer := []
  canonical_product_id : Option String := none
  match_decision : Option MatchDecision := none
deriving DecidableEq

/-- The out-of-range placeholder for dict lookups that cannot miss. -/
def defaultProduct : Product :=
  { name := "", price := { price := 0, currency := "" }, description := "",
    category := "", brand := "" }

/-- resolver.py `IdentityResolverConfig` (defaults; `from_env` overrides
are modelled by constructing other values). -/
structure IdentityResolverConfig where
  match_threshold : ℚ := 72 / 100
  title_brand_min_similarity : ℚ := 62 / 100
  upc_weight : ℚ := 3 / 4
  title_brand_weight : ℚ := 1 / 4
deriving DecidableEq

/-- Replace each maximal run of characters outside `[a-z0-9]` by one space
(`_NON_ALNUM.sub(" ", ·)`, applied to lower-cased text). -/
def collapseNonAlnum : Nat → List Char → List Char
  | 0, _ => []
  | _ + 1, [] => []
  | fuel + 1, c :: cs =>
    if isLowerAlnum c then c :: collapseNonAlnum fuel cs
    else ' ' :: collapseNonAlnum fuel ((c :: cs).dropWhile fun x => ¬ isLowerAlnum x)

/-- resolver.py `_normalize_text`: lower-case, strip, collapse
non-alphanumeric runs to single spaces, strip again. -/
def normalizeText (value : String) : String :=
  let lowered := pyStrip (pyLower value)
  pyStrip ⟨collapseNonAlnum (lowered.data.length + 1) lowered.data⟩

/-- `_GTIN_PATTERN.findall`, i.e. regex `\b\d{8,14}\b`: the maximal digit
runs of length 8 to 14 whose neighbours (when present) are not word
characters.  A run longer than 14 digits yields nothing: every 8-14-digit
sub-window is flanked by a digit on at least one side, which defeats the
`\b` anchors. -/
def gtinRunsLoop : Nat → Option Char → List Char → List String
  | 0, _, _ => []
  | _ + 1, _, [] => []
  | fuel + 1, prev, c :: cs =>
    if c.isDigit then
      let run := (c :: cs).takeWhile Char.isDigit
      let rest := (c :: cs).dropWhile Char.isDigit
      let leftOk := match prev with
        | none => true
        | some p => ¬ isAsciiWordChar p
      let rightOk := match rest.head? with
        | none => true
        | some nc => ¬ isAsciiWordChar nc
      (if leftOk && rightOk && decide (8 ≤ run.length) && decide (run.length ≤ 14)
        then [(⟨run⟩ : String)] else [])
        ++ gtinRunsLoop fuel (some (run.getLastD c)) rest
    else gtinRunsLoop fuel (some c) cs

/-- All GTIN-like codes of one string. -/
def gtinFindAll (s : String) : List String :=
  gtinRunsLoop (s.data.length + 1) none s.data

/-- resolver.py `_extract_gtin_codes`: the set (modelled as a
first-occurrence-deduplicated list) of barcode-like codes over name,
description, brand, key features and offer source urls. -/
def extractGtinCodes (p : Product) : List String :=
  dedupFirst ((([p.name, p.description, p.brand] ++ p.key_features
      ++ p.offers.filterMap Offer.source_url).map gtinFindAll).flatten)

/-- `sorted(left_gtins & right_gtins)`. -/
def sharedGtins (l r : Product) : List String :=
  pySortStrings ((extractGtinCodes l).filter fun c => c ∈ extractGtinCodes r)

/-- resolver.py `_title_brand_similarity`:
`0.75 * ratio(titles) + 0.25 * ratio(brands)` over normalized text. -/
def titleBrandSimilarity (l r : Product) : ℚ :=
  (3 / 4) * seqRatio (normalizeText l.name).data (normalizeText r.name).data
    + (1 / 4) * seqRatio (normalizeText l.brand).data (normalizeText r.brand).data

/-- resolver.py `_PairwiseMatchResult`. -/
structure PairwiseMatchResult where
  matched : Bool
  confidence : ℚ
  evidence : List MatchEvidence
deriving DecidableEq

/-- resolver.py `_evaluate_pair`. -/
def evaluatePair (cfg : IdentityResolverConfig) (left right : Product) :
    PairwiseMatchResult :=
  let shared := sharedGtins left right
  let upcScore : ℚ := if shared ≠ [] then 1 else 0
  let tbScore := titleBrandSimilarity left right
  let evidence : List MatchEvidence :=
    [{ signal := "upc_gtin_exact_match", score := upcScore,
       matched := decide (shared ≠ []),
       details := [("shared_codes", .strs shared)] },
     { signal := "title_brand_similarity", score := tbScore,
       matched := decide (cfg.title_brand_min_similarity ≤ tbScore),
       details := [("left_brand", .txt left.brand),
                   ("right_brand", .txt right.brand)] }]
  let weighted := cfg.upc_weight * upcScore + cfg.title_brand_weight * tbScore
  let total := cfg.upc_weight + cfg.title_brand_weight
  let confidence0 := if 0 < total then weighted / total else 0
  let confidence := if shared ≠ [] then max confidence0 (95 / 100) else confidence0
  { matched := decide (shared ≠ []) || decide (cfg.match_threshold ≤ confidence),
    confidence := confidence, evidence := evidence }

/-- resolver.py `_singleton_decision`. -/
def singletonPairResult : PairwiseMatchResult :=
  { matched := false, confidence := 0,
    evidence :=
      [{ signal := "upc_gtin_exact_match", score := 0, matched := false,
         details := [("reason", .txt "no_other_products")] },
       { signal := "title_brand_similarity", score := 0, matched := false,
         details := [("reason", .txt "no_other_products")] }] }

/-- The symmetric `pairwise` table of `assign_canonical_products`: the
entry for an unordered pair is `_evaluate_pair` on the two products in
ascending id order (the order in which the nested loop over sorted ids
computed and mirrored it). -/
def pairResultFor (cfg : IdentityResolverConfig) (prods : String → Product)
    (p q : String) : PairwiseMatchResult :=
  if p ≤ q then evaluatePair cfg (prods p) (prods q)
  else evaluatePair cfg (prods q) (prods p)

/-- The match graph's edge relation. -/
def matchedRel (cfg : IdentityResolverConfig) (prods : String → Product)
    (p q : String) : Bool :=
  (pairResultFor cfg prods p q).matched

/-- One saturation step of the reachable set of the match graph. -/
def expandStep (ids : List String) (rel : String → String → Bool)
    (s : List String) : List String :=
  dedupFirst (s ++ ids.filter fun q => s.any fun p => rel p q)

/-- Iterated saturation; `ids.length` rounds reach the full connected
component. -/
def reachSet (ids : List String) (rel : String → String → Bool) :
    Nat → List String → List String
  | 0, s => s
  | fuel + 1, s => reachSet ids rel fuel (expandStep ids rel s)

/-- The connected component of `pid` in the match graph, as the sorted
sublist of `ids` (networkx `connected_components` partitions the node set
into exactly these components, and the code sorts each one). -/
def componentOf (cfg : IdentityResolverConfig) (prods : String → Product)
    (ids : List String) (pid : String) : List String :=
  ids.filter fun q => q ∈ reachSet ids (matchedRel cfg prods) ids.length [pid]

/-- resolver.py `_canonical_id_for_component`:
`"cp_" + sha256("||".join(sorted(component))).hexdigest()[:16]`. -/
def canonicalIdForComponent (component : List String) : String :=
  "cp_" ++ ⟨(sha256Hex (utf8Encode
    (String.intercalate "||" (pySortStrings component)))).data.take 16⟩

/-- resolver.py `_best_candidate`: the other id with the highest
confidence, ties broken by the smaller id; `(None, singleton decision)` if
there is no other id. -/
def bestCandidateFold (cfg : IdentityResolverConfig) (prods : String → Product)
    (ids : List String) (pid : String) : Option String × PairwiseMatchResult :=
  let step := fun (best : Option (String × PairwiseMatchResult)) (other : String) =>
    if other = pid then best
    else
      let res := pairResultFor cfg prods pid other
      match best with
      | none => some (other, res)
      | some (bid, bres) =>
        if res.confidence > bres.confidence then some (other, res)
        else if res.confidence = bres.confidence ∧ other < bid then some (other, res)
        else best
  match ids.foldl step none with
  | none => (none, singletonPairResult)
  | some (bid, bres) => (some bid, bres)

/-- The `MatchDecision` recorded for `pid`. -/
def decisionFor (cfg : IdentityResolverConfig) (prods : String → Product)
    (ids : List String) (pid : String) : MatchDecision :=
  let bb := bestCandidateFold cfg prods ids pid
  { candidate_product_id := bb.1, matched := bb.2.matched,
    confidence := bb.2.confidence, threshold := cfg.match_threshold,
    evidence := bb.2.evidence }

/-- The fully annotated copy of `pid`'s record. -/
def annotatedProduct (cfg : IdentityResolverConfig) (prods : String → Product)
    (ids : List String) (pid : String) : Product :=
  { prods pid with
    canonical_product_id :=
      some (canonicalIdForComponent (componentOf cfg prods ids pid)),
    match_decision := some (decisionFor cfg prods ids pid) }

/-- resolver.py `IdentityResolver.assign_canonical_products` on the
id-to-record mapping (as an insertion-ordered association list): deep-copy
every record, score all pairs over sorted ids, write each record's
component's canonical id (networkx `connected_components` partitions the
ids, so the nested component loop writes each id's own component exactly
once), then each record's best-candidate decision.  The returned dict
iterates in the input key order with the annotated copies as values. -/
def assignCanonicalProducts (cfg : IdentityResolverConfig)
    (batch : List (String × Product)) : List (String × Product) :=
  match batch with
  | [] => []
  | _ =>
    let prods := fun pid => (batch.lookup pid).getD defaultProduct
    let ids := pySortStrings (batch.map Prod.fst)
    batch.map fun entry => (entry.1, annotatedProduct cfg prods ids entry.1)

/-! ## Heap model for the ownership claim: records are Python objects on a
heap, the batch maps ids to references, and mutation is explicit -/

/-- A heap of `Product` objects; a reference is an index. -/
structure PyHeap where
  cells : List Product
deriving DecidableEq

/-- Dereference (never out of range on the paths exercised). -/
def PyHeap.get (h : PyHeap) (r : Nat) : Product := h.cells.getD r defaultProduct

/-- In-place field mutation of the object at `r`. -/
def PyHeap.set (h : PyHeap) (r : Nat) (p : Product) : PyHeap := ⟨h.cells.set r p⟩

/-- Sequential references for the fresh copies: the i-th key of the batch
maps to cell `base + i` (the dict comprehension allocates the copies in
input order). -/
def refsFrom (base : Nat) : List (String × Nat) → List (String × Nat)
  | [] => []
  | e :: rest => (e.1, base) :: refsFrom (base + 1) rest

/-- The deep copies of the batch's records, appended as fresh cells
(`model_copy(deep=True)` for each record, in input order). -/
def heapCopies (h : PyHeap) (batch : List (String × Nat)) : PyHeap :=
  ⟨h.cells ++ batch.map fun e => h.get e.2⟩

/-- The id-to-record value view of the batch (what the pairwise phase
reads). -/
def heapValues (h : PyHeap) (batch : List (String × Nat)) : List (String × Product) :=
  batch.map fun e => (e.1, h.get e.2)

/-- The record value of one id. -/
def heapProds (h : PyHeap) (batch : List (String × Nat)) : String → Product :=
  fun pid => ((heapValues h batch).lookup pid).getD defaultProduct

/-- The sorted ids of the batch. -/
def heapIds (batch : List (String × Nat)) : List String :=
  pySortStrings (batch.map Prod.fst)

/-- The reference of `pid`'s fresh copy. -/
def heapRefOf (h : PyHeap) (batch : List (String × Nat)) (pid : String) : Nat :=
  ((refsFrom h.cells.length batch).lookup pid).getD 0

/-- The canonical-id write phase: networkx `connected_components`
partitions the ids, so the nested loops over components and members write,
for each id, the canonical id of its own component exactly once. -/
def heapPhaseA (cfg : IdentityResolverConfig) (h : PyHeap)
    (batch : List (String × Nat)) : PyHeap :=
  (heapIds batch).foldl (fun hh pid =>
    hh.set (heapRefOf h batch pid)
      { hh.get (heapRefOf h batch pid) with
        canonical_product_id := some (canonicalIdForComponent
          (componentOf cfg (heapProds h batch) (heapIds batch) pid)) })
    (heapCopies h batch)

/-- The match-decision write phase. -/
def heapPhaseB (cfg : IdentityResolverConfig) (h : PyHeap)
    (batch : List (String × Nat)) : PyHeap :=
  (heapIds batch).foldl (fun hh pid =>
    hh.set (heapRefOf h batch pid)
      { hh.get (heapRefOf h batch pid) with
        match_decision := some (decisionFor cfg (heapProds h batch)
          (heapIds batch) pid) })
    (heapPhaseA cfg h batch)

/-- resolver.py `assign_canonical_products` against the heap: deep-copy
each record into fresh cells, compute the pairwise results from the
copies' values, then mutate only the copies — first every record's
`canonical_product_id`, then every record's `match_decision` — and return
the same keys mapped to the copies' references. -/
def assignCanonicalProductsHeap (cfg : IdentityResolverConfig) (h : PyHeap)
    (batch : List (String × Nat)) : PyHeap × List (String × Nat) :=
  match batch with
  | [] => (h, [])
  | _ => (heapPhaseB cfg h batch, refsFrom h.cells.length batch)

/-! ## Call-sequence machinery for the candidate-list invariants -/

/-- The stripped non-empty strings a value list contributes, in order (the
values `merge_unique` can retain). -/
def cleanedValues (vs : List PyVal) : List String :=
  (vs.filterMap fun v => match v with
    | .str s => some (pyStrip s)
    | .nonstr => none).filter (· ≠ "")

/-- Whether a `merge_unique` argument is a Python string. -/
def PyVal.isStr : PyVal → Bool
  | .str _ => true
  | .nonstr => false

/-- A sequence of `add_candidates`/`merge_unique` calls (field name and
value list per call) applied to a context.  `add_candidates` on a valid
field name is exactly `merge_unique` (models.py line 182). -/
def applyMergeOps (ctx : ExtractionContext)
    (ops : List (String × List PyVal)) : ExtractionContext :=
  ops.foldl (fun c op => c.merge_unique op.1 op.2) ctx

/-- The concatenated values of the calls naming the field `f`, in call
order. -/
def valuesFor (f : String) (ops : List (String × List PyVal)) : List PyVal :=
  ((ops.filter fun op => op.1 = f).map Prod.snd).flatten

/-! ## Concrete inputs for the balanced-bracket extraction claims -/

/-- The Shopify-style script body of the spec's extraction example. -/
def metaExampleBody : String :=
  "var meta = \x7b\"product\": \x7b\"variants\": [\x7b\"id\": 1, \"public_title\": \"8\"\x7d]\x7d\x7d;"

/-- The decoded object the extractor must return for
`metaExampleBody`. -/
def metaExampleJson : Json :=
  .obj [("product", .obj [("variants",
    .arr [.obj [("id", .int 1), ("public_title", .str "8")]])])]

/-- A JSON object whose string value holds escaped quotes and then an
opening brace: the scan must not terminate early inside the string. -/
def escExampleBody : String :=
  "\x7b\"note\": \"a \\\"weird\\\" \x7b value\"\x7d"

/-- Indexing a decoded object by key (`blob["k"]`). -/
def jsonKey (j : Json) (k : String) : Option Json :=
  match j with
  | .obj es => jsonGet es k
  | _ => none

/-- Indexing a decoded array (`blob[i]`). -/
def jsonAt (j : Json) (i : Nat) : Option Json :=
  match j with
  | .arr es => es.get? i
  | _ => none

/-! # Theorems -/

/-! ## The seen-set deduplication shape -/

theorem dedupNotIn_append {α : Type} [DecidableEq α] (xs ys seen : List α) :
    dedupNotIn seen (xs ++ ys) =
      dedupNotIn seen xs ++ dedupNotIn (seen ++ dedupNotIn seen xs) ys := by
  induction xs generalizing seen with
  | nil => simp [dedupNotIn]
  | cons x rest ih =>
    by_cases hx : x ∈ seen
    · simp [dedupNotIn, hx, ih]
    · simp only [List.cons_append, dedupNotIn, hx, if_false, List.append_eq]
      rw [ih (seen ++ [x])]
      simp [List.append_assoc]

theorem mem_dedupNotIn {α : Type} [DecidableEq α] (seen l : List α) (x : α) :
    x ∈ dedupNotIn seen l → x ∈ l ∧ x ∉ seen := by
  induction l generalizing seen with
  | nil => simp [dedupNotIn]
  | cons y rest ih =>
    by_cases hy : y ∈ seen
    · intro h
      rcases ih seen (by simpa [dedupNotIn, hy] using h) with ⟨h1, h2⟩
      exact ⟨List.mem_cons_of_mem _ h1, h2⟩
    · intro h
      rcases List.mem_cons.1 (by simpa [dedupNotIn, hy] using h) with h | h
      · exact ⟨by simp [h], by simpa [h] using hy⟩
      · rcases ih (seen ++ [y]) h with ⟨h1, h2⟩
        refine ⟨List.mem_cons_of_mem _ h1, fun hc => h2 ?_⟩
        simp [hc]

theorem dedupNotIn_nodup {α : Type} [DecidableEq α] (seen l : List α) :
    (dedupNotIn seen l).Nodup := by
  induction l generalizing seen with
  | nil => simp [dedupNotIn]
  | cons y rest ih =>
    by_cases hy : y ∈ seen
    · simpa [dedupNotIn, hy] using ih seen
    · simp only [dedupNotIn, hy, if_false, List.nodup_cons]
      refine ⟨fun hc => ?_, ih (seen ++ [y])⟩
      exact (mem_dedupNotIn _ _ _ hc).2 (by simp)

theorem pySortStrings_eq_of_perm {l1 l2 : List String} (h : l1.Perm l2) :
    pySortStrings l1 = pySortStrings l2 :=
  List.eq_of_perm_of_sorted
    ((List.perm_insertionSort _ l1).trans (h.trans (List.perm_insertionSort _ l2).symm))
    (List.sorted_insertionSort _ l1) (List.sorted_insertionSort _ l2)

theorem dedupNotIn_eq_self {α : Type} [DecidableEq α] (seen l : List α)
    (hdisj : ∀ x ∈ l, x ∉ seen) (hnodup : l.Nodup) : dedupNotIn seen l = l := by
  induction l generalizing seen with
  | nil => simp [dedupNotIn]
  | cons y rest ih =>
    have hy : y ∉ seen := hdisj y (by simp)
    rcases List.nodup_cons.1 hnodup with ⟨hyrest, hrest⟩
    have hdisj2 : ∀ x ∈ rest, x ∉ seen ++ [y] := by
      intro x hx
      simp only [List.mem_append, List.mem_singleton]
      rintro (hs | rfl)
      · exact hdisj x (List.mem_cons_of_mem _ hx) hs
      · exact hyrest hx
    simp [dedupNotIn, hy, ih (seen ++ [y]) hdisj2 hrest]

/-! ## Stripping -/

theorem dropWhile_head_not {p : Char → Bool} :
    ∀ (l : List Char), l.dropWhile p ≠ [] → p ((l.dropWhile p).headD ' ') = false := by
  intro l
  induction l with
  | nil => simp [List.dropWhile]
  | cons c cs ih =>
    by_cases hc : p c
    · simpa [List.dropWhile, hc] using ih
    · simp [List.dropWhile, hc]

theorem pyStrip_not_all_space (s : String) (h : pyStrip s ≠ "") :
    (pyStrip s).data.all pyIsSpace = false := by
  have hdata : (pyStrip s).data
      = ((s.data.dropWhile pyIsSpace).reverse.dropWhile pyIsSpace).reverse := rfl
  have hne : (s.data.dropWhile pyIsSpace).reverse.dropWhile pyIsSpace ≠ [] := by
    intro hx
    apply h
    show (⟨((s.data.dropWhile pyIsSpace).reverse.dropWhile pyIsSpace).reverse⟩ : String) = ""
    rw [hx]
    rfl
  have hhead := dropWhile_head_not (p := pyIsSpace)
    (s.data.dropWhile pyIsSpace).reverse hne
  have hmem : ((s.data.dropWhile pyIsSpace).reverse.dropWhile pyIsSpace).headD ' '
      ∈ (pyStrip s).data := by
    rw [hdata]
    apply List.mem_reverse.2
    cases hx : (s.data.dropWhile pyIsSpace).reverse.dropWhile pyIsSpace with
    | nil => exact absurd hx hne
    | cons a t => simp [hx, List.headD]
  cases hall : (pyStrip s).data.all pyIsSpace
  · rfl
  · have hx := List.all_eq_true.1 hall _ hmem
    rw [hhead] at hx
    exact Bool.noConfusion hx

/-! ## merge_unique -/

theorem mergeUniqueList_eq_dedup (acc : List String) (vs : List PyVal) :
    mergeUniqueList acc vs = acc ++ dedupNotIn acc (cleanedValues vs) := by
  induction vs generalizing acc with
  | nil => simp [mergeUniqueList, cleanedValues, dedupNotIn]
  | cons v rest ih =>
    cases v with
    | nonstr =>
      have h1 : mergeUniqueList acc (PyVal.nonstr :: rest) = mergeUniqueList acc rest := rfl
      have h2 : cleanedValues (PyVal.nonstr :: rest) = cleanedValues rest := rfl
      rw [h1, h2, ih]
    | str s =>
      have hstep : mergeUniqueList acc (PyVal.str s :: rest)
          = mergeUniqueList (mergeStep acc (PyVal.str s)) rest := rfl
      by_cases h1 : pyStrip s = ""
      · have hclean : cleanedValues (PyVal.str s :: rest) = cleanedValues rest := by
          simp [cleanedValues, h1]
        have hm : mergeStep acc (PyVal.str s) = acc := by simp [mergeStep, h1]
        rw [hstep, hm, hclean, ih]
      · have hclean : cleanedValues (PyVal.str s :: rest)
            = pyStrip s :: cleanedValues rest := by
          simp [cleanedValues, h1]
        by_cases h2 : pyStrip s ∈ acc
        · have hm : mergeStep acc (PyVal.str s) = acc := by
            simp [mergeStep, h2]
          rw [hstep, hm, ih, hclean]
          simp [dedupNotIn, h2]
        · have hm : mergeStep acc (PyVal.str s) = acc ++ [pyStrip s] := by
            simp [mergeStep, h1, h2]
          rw [hstep, hm, ih, hclean]
          simp [dedupNotIn, h2, List.append_assoc]

theorem mergeUniqueList_append (acc : List String) (v1 v2 : List PyVal) :
    mergeUniqueList acc (v1 ++ v2) = mergeUniqueList (mergeUniqueList acc v1) v2 :=
  List.foldl_append mergeStep acc v1 v2

theorem mergeUniqueList_filter_str (acc : List String) (vs : List PyVal) :
    mergeUniqueList acc (vs.filter PyVal.isStr) = mergeUniqueList acc vs := by
  induction vs generalizing acc with
  | nil => rfl
  | cons v rest ih =>
    cases v with
    | nonstr =>
      have h1 : (PyVal.nonstr :: rest).filter PyVal.isStr = rest.filter PyVal.isStr := rfl
      have h2 : mergeUniqueList acc (PyVal.nonstr :: rest) = mergeUniqueList acc rest := rfl
      rw [h1, h2, ih]
    | str s =>
      have h1 : (PyVal.str s :: rest).filter PyVal.isStr
          = PyVal.str s :: rest.filter PyVal.isStr := rfl
      rw [h1]
      show mergeUniqueList (mergeStep acc (PyVal.str s)) (rest.filter PyVal.isStr)
        = mergeUniqueList (mergeStep acc (PyVal.str s)) rest
      exact ih _

/-! ## Field plumbing -/

theorem getField_setField_same (ctx : ExtractionContext) (l : List String)
    {f : String} (hf : f ∈ CANDIDATE_FIELDS) :
    (ctx.setField f l).getField f = l := by
  simp only [CANDIDATE_FIELDS, List.mem_cons, List.mem_singleton, List.not_mem_nil,
    or_false] at hf
  rcases hf with rfl | rfl | rfl | rfl | rfl | rfl | rfl | rfl <;> rfl

theorem getField_invalid (ctx : ExtractionContext) {f : String}
    (hf : f ∉ CANDIDATE_FIELDS) : ctx.getField f = [] := by
  unfold ExtractionContext.getField
  split_ifs <;> first | rfl | (subst_vars; exact absurd (by decide) hf)

set_option maxHeartbeats 3200000 in
theorem getField_setField_ne (ctx : ExtractionContext) (l : List String)
    {f g : String} (hne : f ≠ g) :
    (ctx.setField g l).getField f = ctx.getField f := by
  by_cases hf : f ∈ CANDIDATE_FIELDS
  · simp only [CANDIDATE_FIELDS, List.mem_cons, List.mem_singleton, List.not_mem_nil,
      or_false] at hf
    rcases hf with rfl | rfl | rfl | rfl | rfl | rfl | rfl | rfl <;>
      (unfold ExtractionContext.setField
       split_ifs <;> first | rfl | (subst_vars; exact absurd rfl hne))
  · rw [getField_invalid ctx hf, getField_invalid _ hf]

theorem setField_fixed_parts (ctx : ExtractionContext) (g : String) (l : List String) :
    (ctx.setField g l).option_group_candidates = ctx.option_group_candidates
    ∧ (ctx.setField g l).raw_attributes = ctx.raw_attributes
    ∧ (ctx.setField g l).page_url = ctx.page_url := by
  unfold ExtractionContext.setField
  split_ifs <;> exact ⟨rfl, rfl, rfl⟩

theorem getField_default (f : String) :
    (({} : ExtractionContext)).getField f = [] := by
  unfold ExtractionContext.getField
  split_ifs <;> rfl

theorem getField_merge_same (ctx : ExtractionContext) (vs : List PyVal)
    {f : String} (hf : f ∈ CANDIDATE_FIELDS) :
    (ctx.merge_unique f vs).getField f = mergeUniqueList (ctx.getField f) vs := by
  unfold ExtractionContext.merge_unique
  exact getField_setField_same ctx _ hf

theorem getField_merge_ne (ctx : ExtractionContext) (vs : List PyVal)
    {f g : String} (hne : f ≠ g) :
    (ctx.merge_unique g vs).getField f = ctx.getField f := by
  unfold ExtractionContext.merge_unique
  exact getField_setField_ne ctx _ hne

theorem applyMergeOps_getField (ops : List (String × List PyVal))
    (ctx : ExtractionContext) {f : String} (hf : f ∈ CANDIDATE_FIELDS) :
    (applyMergeOps ctx ops).getField f
      = mergeUniqueList (ctx.getField f) (valuesFor f ops) := by
  induction ops generalizing ctx with
  | nil => rfl
  | cons op rest ih =>
    have hstep : applyMergeOps ctx (op :: rest)
        = applyMergeOps (ctx.merge_unique op.1 op.2) rest := rfl
    by_cases hg : op.1 = f
    · have hv : valuesFor f (op :: rest) = op.2 ++ valuesFor f rest := by
        simp [valuesFor, List.filter_cons, hg]
      rw [hstep, ih, hg, getField_merge_same ctx op.2 hf, hv, mergeUniqueList_append]
    · have hv : valuesFor f (op :: rest) = valuesFor f rest := by
        simp [valuesFor, List.filter_cons, hg]
      rw [hstep, ih, getField_merge_ne ctx op.2 (fun hc => hg hc.symm), hv]

/-- C4: starting from a fresh context, any sequence of
`add_candidates`/`merge_unique` calls naming real candidate fields leaves
every candidate field equal to the first-occurrence deduplication of the
stripped non-empty string values addressed to it, in call order — hence
the list has no duplicate strings (case-sensitively), no empty and no
whitespace-only entries, in first-occurrence order. -/
theorem candidate_list_invariant (ops : List (String × List PyVal)) (f : String)
    (hf : f ∈ CANDIDATE_FIELDS) (_hvalid : ∀ op ∈ ops, op.1 ∈ CANDIDATE_FIELDS) :
    (applyMergeOps {} ops).getField f = dedupFirst (cleanedValues (valuesFor f ops))
    ∧ ((applyMergeOps {} ops).getField f).Nodup
    ∧ ∀ s ∈ (applyMergeOps {} ops).getField f,
        s ≠ "" ∧ s.data.all pyIsSpace = false := by
  have hchar : (applyMergeOps {} ops).getField f
      = dedupFirst (cleanedValues (valuesFor f ops)) := by
    rw [applyMergeOps_getField ops _ hf, getField_default, mergeUniqueList_eq_dedup]
    simp [dedupFirst]
  refine ⟨hchar, ?_, ?_⟩
  · rw [hchar]
    exact dedupNotIn_nodup [] _
  · intro s hs
    rw [hchar] at hs
    have hmem := (mem_dedupNotIn [] _ s hs).1
    rcases List.mem_filter.1 hmem with ⟨h1, h2⟩
    have hne : s ≠ "" := by simpa using h2
    rcases List.mem_filterMap.1 h1 with ⟨v, _, hv⟩
    cases v with
    | nonstr => exact absurd hv (by simp)
    | str s0 =>
      have hstrip : pyStrip s0 = s := by simpa using hv
      exact ⟨hne, hstrip ▸ pyStrip_not_all_space s0 (hstrip.symm ▸ hne)⟩

/-- Witness for `candidate_list_invariant` at a concrete call sequence. -/
theorem candidate_list_invariant_witness :
    (("title_candidates" : String) ∈ CANDIDATE_FIELDS)
    ∧ (∀ op ∈ ([("title_candidates", [PyVal.str " A ", PyVal.str "A", PyVal.nonstr]),
        ("brand_candidates", [PyVal.str "B"])] : List (String × List PyVal)),
        op.1 ∈ CANDIDATE_FIELDS)
    ∧ ((applyMergeOps {} [("title_candidates", [PyVal.str " A ", PyVal.str "A", PyVal.nonstr]),
          ("brand_candidates", [PyVal.str "B"])]).getField "title_candidates"
        = dedupFirst (cleanedValues (valuesFor "title_candidates"
            [("title_candidates", [PyVal.str " A ", PyVal.str "A", PyVal.nonstr]),
             ("brand_candidates", [PyVal.str "B"])]))) :=
  ⟨by decide, by decide,
    (candidate_list_invariant
      [("title_candidates", [PyVal.str " A ", PyVal.str "A", PyVal.nonstr]),
       ("brand_candidates", [PyVal.str "B"])]
      "title_candidates" (by decide) (by decide)).1⟩

/-- C10: `add_candidates` with a field name outside the eight candidate
fields raises `ValueError` carrying the untouched context; with a valid
name it never raises, its effect is exactly `merge_unique`, which skips
non-string values silently and changes nothing but the named field. -/
theorem add_candidates_spec (ctx : ExtractionContext) (f : String) (vs : List PyVal) :
    (f ∉ CANDIDATE_FIELDS →
      ctx.add_candidates f vs = .error ("Unknown candidate field: " ++ f, ctx))
    ∧ (f ∈ CANDIDATE_FIELDS →
        ctx.add_candidates f vs = .ok (ctx.merge_unique f vs)
        ∧ ctx.merge_unique f vs = ctx.merge_unique f (vs.filter PyVal.isStr)
        ∧ (∀ g, g ≠ f → (ctx.merge_unique f vs).getField g = ctx.getField g)
        ∧ (ctx.merge_unique f vs).option_group_candidates = ctx.option_group_candidates
        ∧ (ctx.merge_unique f vs).raw_attributes = ctx.raw_attributes
        ∧ (ctx.merge_unique f vs).page_url = ctx.page_url) := by
  constructor
  · intro hf
    simp [ExtractionContext.add_candidates, hf]
  · intro hf
    refine ⟨by simp [ExtractionContext.add_candidates, hf], ?_, ?_, ?_, ?_, ?_⟩
    · unfold ExtractionContext.merge_unique
      rw [mergeUniqueList_filter_str]
    · intro g hg
      exact getField_merge_ne ctx vs hg
    · exact (setField_fixed_parts ctx f _).1
    · exact (setField_fixed_parts ctx f _).2.1
    · exact (setField_fixed_parts ctx f _).2.2

/-- Witness for `add_candidates_spec`: a bogus field name errors with the
context unchanged, a valid one succeeds. -/
theorem add_candidates_spec_witness :
    (("bogus" : String) ∉ CANDIDATE_FIELDS)
    ∧ (({} : ExtractionContext).add_candidates "bogus" [PyVal.str "x"]
        = .error ("Unknown candidate field: " ++ "bogus", ({} : ExtractionContext)))
    ∧ (("title_candidates" : String) ∈ CANDIDATE_FIELDS)
    ∧ (({} : ExtractionContext).add_candidates "title_candidates"
          [PyVal.str " T ", PyVal.nonstr]
        = .ok (({} : ExtractionContext).merge_unique "title_candidates"
            [PyVal.str " T ", PyVal.nonstr])) :=
  ⟨by decide, (add_candidates_spec {} "bogus" [PyVal.str "x"]).1 (by decide), by decide,
    ((add_candidates_spec {} "title_candidates" [PyVal.str " T ", PyVal.nonstr]).2
      (by decide)).1⟩

/-! ## add_option_group -/

theorem mergeOptions_fold_values (gopts : List OptionValue) :
    ∀ acc : List OptionValue,
      (gopts.foldl (fun acc opt =>
          if opt.value ∈ acc.map OptionValue.value then acc else acc ++ [opt]) acc).map
            OptionValue.value
        = acc.map OptionValue.value
          ++ dedupNotIn (acc.map OptionValue.value) (gopts.map OptionValue.value) := by
  induction gopts with
  | nil => intro acc; simp [dedupNotIn]
  | cons opt rest ih =>
    intro acc
    by_cases hmem : opt.value ∈ acc.map OptionValue.value
    · have hstep : (opt :: rest).foldl (fun acc opt =>
          if opt.value ∈ acc.map OptionValue.value then acc else acc ++ [opt]) acc
          = rest.foldl (fun acc opt =>
          if opt.value ∈ acc.map OptionValue.value then acc else acc ++ [opt]) acc := by
        rw [List.foldl_cons, if_pos hmem]
      rw [hstep, ih acc]
      simp [dedupNotIn, hmem]
    · have hstep : (opt :: rest).foldl (fun acc opt =>
          if opt.value ∈ acc.map OptionValue.value then acc else acc ++ [opt]) acc
          = rest.foldl (fun acc opt =>
          if opt.value ∈ acc.map OptionValue.value then acc else acc ++ [opt])
            (acc ++ [opt]) := by
        rw [List.foldl_cons, if_neg hmem]
      rw [hstep, ih (acc ++ [opt])]
      simp [dedupNotIn, hmem, List.append_assoc]

theorem addGroupToList_split (pre post : List OptionGroup) (e g : OptionGroup)
    (hpre : ∀ x ∈ pre, pyLower x.dimension ≠ pyLower g.dimension)
    (hdim : pyLower e.dimension = pyLower g.dimension) :
    addGroupToList (pre ++ e :: post) g = pre ++ e.mergeOptions g :: post := by
  induction pre with
  | nil => simp [addGroupToList, hdim]
  | cons x rest ih =>
    have hx := hpre x (by simp)
    simp only [List.cons_append, addGroupToList, hx, if_false, List.append_eq]
    rw [ih fun y hy => hpre y (List.mem_cons_of_mem _ hy)]

/-- C5: adding an `OptionGroup` whose dimension case-insensitively matches
an existing group merges into that group and never creates a second group
for the dimension; the merged group keeps its dimension, and its option
values are the distinct values of the existing then the incoming group,
each exactly once, in first-seen order.  `pre`/`e`/`post` decompose the
context's group list at the first case-insensitive match; the `Nodup`
hypothesis is the data-model invariant that an existing group holds
deduplicated values. -/
theorem add_option_group_spec (ctx : ExtractionContext) (g e : OptionGroup)
    (pre post : List OptionGroup)
    (hsplit : ctx.option_group_candidates = pre ++ e :: post)
    (hpre : ∀ x ∈ pre, pyLower x.dimension ≠ pyLower g.dimension)
    (hdim : pyLower e.dimension = pyLower g.dimension)
    (hnodup : (e.options.map OptionValue.value).Nodup) :
    (ctx.add_option_group g).option_group_candidates = pre ++ e.mergeOptions g :: post
    ∧ ((ctx.add_option_group g).option_group_candidates).length
        = ctx.option_group_candidates.length
    ∧ (e.mergeOptions g).dimension = e.dimension
    ∧ (e.mergeOptions g).options.map OptionValue.value
        = dedupFirst (e.options.map OptionValue.value ++ g.options.map OptionValue.value)
    ∧ ((e.mergeOptions g).options.map OptionValue.value).Nodup := by
  have h1 : (ctx.add_option_group g).option_group_candidates
      = addGroupToList ctx.option_group_candidates g := rfl
  have h2 := addGroupToList_split pre post e g hpre hdim
  have hvals : (e.mergeOptions g).options.map OptionValue.value
      = e.options.map OptionValue.value
        ++ dedupNotIn (e.options.map OptionValue.value)
            (g.options.map OptionValue.value) :=
    mergeOptions_fold_values g.options e.options
  have hded : dedupFirst (e.options.map OptionValue.value
        ++ g.options.map OptionValue.value)
      = e.options.map OptionValue.value
        ++ dedupNotIn (e.options.map OptionValue.value)
            (g.options.map OptionValue.value) := by
    rw [dedupFirst, dedupNotIn_append]
    have hself : dedupNotIn ([] : List String) (e.options.map OptionValue.value)
        = e.options.map OptionValue.value :=
      dedupNotIn_eq_self [] _ (by simp) hnodup
    rw [hself]
    simp
  refine ⟨?_, ?_, rfl, ?_, ?_⟩
  · rw [h1, hsplit, h2]
  · rw [h1, hsplit, h2]
    simp
  · rw [hvals, hded]
  · rw [hvals]
    refine List.nodup_append.2 ⟨hnodup, dedupNotIn_nodup _ _, ?_⟩
    intro x hx hx2
    exact (mem_dedupNotIn _ _ x hx2).2 hx

/-- Witness for `add_option_group_spec`: merging `size` into `Size`. -/
theorem add_option_group_spec_witness :
    (pyLower "Size" = pyLower "size")
    ∧ ((({ option_group_candidates :=
            [{ dimension := "Size", options := [{ value := "S" }] }] } :
          ExtractionContext).add_option_group
            { dimension := "size", options := [{ value := "S" }, { value := "M" }] }
        ).option_group_candidates
        = [OptionGroup.mergeOptions { dimension := "Size", options := [{ value := "S" }] }
            { dimension := "size", options := [{ value := "S" }, { value := "M" }] }]) :=
  ⟨by decide,
    by
      have h := (add_option_group_spec
        { option_group_candidates := [{ dimension := "Size", options := [{ value := "S" }] }] }
        { dimension := "size", options := [{ value := "S" }, { value := "M" }] }
        { dimension := "Size", options := [{ value := "S" }] }
        [] [] rfl (by simp) (by decide) (by decide)).1
      simpa using h⟩

/-! ## Structured candidate mapping (flattening) -/

theorem flattenScalarList_eq :
    ∀ elems, flattenScalarList elems = (elems.map flattenScalarStrings).flatten := by
  intro elems
  induction elems with
  | nil => rfl
  | cons e es ih => simp [flattenScalarList, ih]

theorem collectForList_eq (target : String) :
    ∀ elems, collectForList target elems
      = (elems.map (collectValuesForKey target)).flatten := by
  intro elems
  induction elems with
  | nil => rfl
  | cons e es ih => simp [collectForList, ih]

/-- C9 counterexample: a nested object carrying both a `name` and a `url`
string contributes two strings, not "only the first present" subkey. -/
theorem flatten_contributes_all_subkeys :
    flattenScalarStrings (.obj [("name", .str "a"), ("url", .str "b")]) = ["a", "b"]
    ∧ (flattenScalarStrings (.obj [("name", .str "a"), ("url", .str "b")])).length ≠ 1 :=
  ⟨rfl, by decide⟩

/-- C9 as amended: flattening stringifies scalars directly (bools are
Python ints, giving `"True"`/`"False"`), recurses element-wise into lists,
and from a nested object takes, in the fixed order
`name`/`value`/`url`/`text`, every one of those entries whose value is a
string (up to four strings, not only the first present); the key walk
flattens each matching entry and keeps walking inside every value. -/
theorem flatten_and_collect_spec :
    (∀ s, flattenScalarStrings (.str s) = [s])
    ∧ (∀ n : Int, flattenScalarStrings (.int n) = [toString n])
    ∧ (∀ q : ℚ, flattenScalarStrings (.float q) = [pyFloatStr q])
    ∧ (∀ b, flattenScalarStrings (.bool b) = [if b then "True" else "False"])
    ∧ flattenScalarStrings .null = []
    ∧ (∀ elems, flattenScalarStrings (.arr elems)
        = (elems.map flattenScalarStrings).flatten)
    ∧ (∀ entries, flattenScalarStrings (.obj entries)
        = ["name", "value", "url", "text"].filterMap fun k =>
            match jsonGet entries k with
            | some (.str s) => some s
            | _ => none)
    ∧ (∀ target k v entries,
        collectValuesForKey target (.obj ((k, v) :: entries))
          = (if k = target then flattenScalarStrings v else [])
            ++ collectValuesForKey target v
            ++ collectValuesForKey target (.obj entries))
    ∧ (∀ target elems, collectValuesForKey target (.arr elems)
        = (elems.map (collectValuesForKey target)).flatten)
    ∧ (∀ target s, collectValuesForKey target (.str s) = []) :=
  ⟨fun _ => rfl, fun _ => rfl, fun _ => rfl, fun _ => rfl, rfl,
    fun elems => flattenScalarList_eq elems,
    fun _ => rfl,
    fun _ _ _ _ => rfl,
    fun target elems => collectForList_eq target elems,
    fun _ _ => rfl⟩

/-! ## Balanced-bracket extraction -/

/-- C6: inside a double-quoted string the scan never changes the bracket
depth (the in-string and escape flags make `\"` continue the string and
`\\` neutral); the Shopify example yields exactly one decoded object whose
`["product"]["variants"][0]["public_title"]` is `"8"`; and a string value
holding escaped quotes followed by an opening brace does not end the scan
early — the whole object is extracted. -/
theorem balanced_scan_spec :
    (∀ (opening closing : Char) (st : EbjState) (ch : Char),
        st.inString = true → (ebjStep opening closing st ch).depth = st.depth)
    ∧ iterAssignedJsonBlobs metaExampleBody = [metaExampleJson]
    ∧ ((((jsonKey metaExampleJson "product").bind (jsonKey · "variants")).bind
          (jsonAt · 0)).bind (jsonKey · "public_title") = some (.str "8"))
    ∧ extractBalancedJson escExampleBody.data 0
        = (some escExampleBody.data, escExampleBody.data.length) := by
  refine ⟨?_, rfl, rfl, rfl⟩
  intro opening closing st ch h
  unfold ebjStep
  rw [h]
  simp only [if_true]
  split_ifs <;> rfl

/-- Witness for the in-string conjunct of `balanced_scan_spec` at a
concrete state: a closing brace seen inside a string leaves the depth
alone. -/
theorem balanced_scan_spec_witness :
    ((⟨3, true, false⟩ : EbjState).inString = true)
    ∧ (ebjStep '{' '}' ⟨3, true, false⟩ '}').depth = (⟨3, true, false⟩ : EbjState).depth :=
  ⟨rfl, balanced_scan_spec.1 '{' '}' ⟨3, true, false⟩ '}' rfl⟩

/-! ## The structured-extraction entry point -/

/-- C1 (code bug): for every page — whatever script, meta, data-JSON and
color signals the scanner produced — `extract_structured_signals` raises
`ValueError` at structured_extraction.py line 66, because
`extract_html_signals` (html_signals.py line 96) returns a 4-tuple and the
call site unpacks it into two targets; no extraction pass ever runs. -/
theorem extract_structured_signals_always_raises :
    ∀ (rest : SignalStream × SignalStream → ExtractionContext)
      (scripts : List ScriptSignal) (metas : List MetaSignal)
      (dataJson : List DataJsonSignal) (colors : List String),
      extractStructuredSignalsFrom rest
          (extractHtmlSignalsTuple scripts metas dataJson colors)
        = .error "too many values to unpack (expected 2)" :=
  fun _ _ _ _ _ => rfl

/-! ## Taxonomy prefilter fallback -/

theorem fbLoop_eq (k : Nat) :
    ∀ (items ordered : List String), ordered.length < k →
      fbLoop k items ordered = (ordered ++ dedupNotIn ordered items).take k := by
  intro items
  induction items with
  | nil =>
    intro ordered h
    simp [fbLoop, dedupNotIn, List.take_of_length_le h.le]
  | cons x rest ih =>
    intro ordered h
    by_cases hx : x ∈ ordered
    · rw [show fbLoop k (x :: rest) ordered = fbLoop k rest ordered from by
        simp only [fbLoop]
        rw [if_pos hx]]
      rw [ih ordered h]
      simp [dedupNotIn, hx]
    · by_cases hk : (ordered ++ [x]).length ≥ k
      · have hkeq : k = ordered.length + 1 := by
          have h1 : (ordered ++ [x]).length = ordered.length + 1 := by simp
          omega
        rw [show fbLoop k (x :: rest) ordered = ordered ++ [x] from by
          simp only [fbLoop]
          rw [if_neg hx, if_pos hk]]
        rw [show ordered ++ dedupNotIn ordered (x :: rest)
            = (ordered ++ [x]) ++ dedupNotIn (ordered ++ [x]) rest from by
          simp [dedupNotIn, hx]]
        rw [hkeq, show ordered.length + 1 = (ordered ++ [x]).length from by simp,
          List.take_left]
      · have h2 : (ordered ++ [x]).length < k := lt_of_not_ge hk
        rw [show fbLoop k (x :: rest) ordered = fbLoop k rest (ordered ++ [x]) from by
          simp only [fbLoop]
          rw [if_neg hx, if_neg hk]]
        rw [ih (ordered ++ [x]) h2]
        simp [dedupNotIn, hx, List.append_assoc]

theorem fallbackCategories_eq (cats : List String) (top_k : Int) (hk : 0 < top_k) :
    fallbackCategories cats top_k
      = (dedupFirst (cats.map firstSegment ++ cats)).take top_k.toNat := by
  simp only [fallbackCategories]
  rw [if_neg (not_le.2 hk)]
  have hkpos : 0 < top_k.toNat := by omega
  have h1 : fbLoop top_k.toNat (cats.map firstSegment) []
      = (dedupNotIn [] (cats.map firstSegment)).take top_k.toNat := by
    have hx := fbLoop_eq top_k.toNat (cats.map firstSegment) [] (by simpa using hkpos)
    simpa using hx
  rw [h1]
  by_cases hge : ((dedupNotIn [] (cats.map firstSegment)).take top_k.toNat).length
      ≥ top_k.toNat
  · rw [if_pos hge]
    have hlenA : top_k.toNat ≤ (dedupNotIn [] (cats.map firstSegment)).length := by
      rw [List.length_take] at hge
      omega
    rw [dedupFirst, dedupNotIn_append, List.take_append_of_le_length hlenA]
  · rw [if_neg hge]
    have hlt : (dedupNotIn [] (cats.map firstSegment)).length < top_k.toNat := by
      rw [List.length_take] at hge
      omega
    have hA : (dedupNotIn [] (cats.map firstSegment)).take top_k.toNat
        = dedupNotIn [] (cats.map firstSegment) := List.take_of_length_le hlt.le
    rw [hA, fbLoop_eq top_k.toNat cats _ hlt, dedupFirst, dedupNotIn_append]
    simp

/-- C7 counterexample: on the one-label vocabulary `["A"]` with
`top_k = 2` the fallback returns a single result, so a non-empty
vocabulary does not guarantee exactly `top_k` results. -/
theorem fallback_short_vocab :
    fallbackCategories ["A"] 2 = ["A"]
    ∧ (fallbackCategories ["A"] 2).length ≠ 2 :=
  ⟨by decide, by decide⟩

/-- C7 as amended: with a positive `top_k` and a non-empty materialized
vocabulary, a zero-token query — or a best BM25 score at most 0 (also
covering an empty scored list) — routes `select_category_candidates` to
the deterministic fallback; the fallback equals pass 1 (one representative
per distinct top-level segment, vocabulary order) extended by pass 2 (full
labels not already used), i.e. the first-occurrence deduplication of the
segments followed by the labels, truncated to `top_k`; its length is
`min top_k D` where `D` counts those distinct strings — equal to `top_k`
exactly when enough distinct strings exist, but possibly fewer. -/
theorem select_fallback_spec
    (bm25Scores : List (List String) → List String → List ℚ)
    (validCategories : List String) (ctx : ExtractionContext)
    (categories : Option (List String)) (top_k : Int)
    (hk : 0 < top_k)
    (hcats : materializeCategories validCategories categories ≠ [])
    (hfall : buildQueryTerms ctx = []
      ∨ ∀ p ∈ (scoreCategories
          (bm25Scores ((materializeCategories validCategories categories).map pfTokenize)
            (buildQueryTerms ctx))
          (materializeCategories validCategories categories)).head?, p.1 ≤ 0) :
    selectCategoryCandidates bm25Scores validCategories ctx categories top_k
      = fallbackCategories (materializeCategories validCategories categories) top_k
    ∧ fallbackCategories (materializeCategories validCategories categories) top_k
      = (dedupFirst ((materializeCategories validCategories categories).map firstSegment
          ++ materializeCategories validCategories categories)).take top_k.toNat
    ∧ (fallbackCategories (materializeCategories validCategories categories) top_k).length
      = min top_k.toNat
          (dedupFirst ((materializeCategories validCategories categories).map firstSegment
            ++ materializeCategories validCategories categories)).length := by
  refine ⟨?_, fallbackCategories_eq _ _ hk, ?_⟩
  · simp only [selectCategoryCandidates]
    rw [if_neg (not_le.2 hk), if_neg hcats]
    rcases hfall with hq | hs
    · rw [if_pos hq]
    · by_cases hq : buildQueryTerms ctx = []
      · rw [if_pos hq]
      · rw [if_neg hq]
        rcases hscor : scoreCategories
            (bm25Scores ((materializeCategories validCategories categories).map pfTokenize)
              (buildQueryTerms ctx))
            (materializeCategories validCategories categories) with _ | ⟨⟨s, c⟩, rest2⟩
        · rfl
        · have hs0 : s ≤ 0 := by
            have hx := hs ⟨s, c⟩
            rw [hscor] at hx
            exact hx (by simp)
          exact if_pos hs0
  · rw [fallbackCategories_eq _ _ hk, List.length_take]

/-- Witness for `select_fallback_spec`: an empty-signal context with an
explicit two-label vocabulary routes to the fallback. -/
theorem select_fallback_spec_witness :
    ((0 : Int) < 1)
    ∧ materializeCategories [] (some ["A"]) ≠ []
    ∧ buildQueryTerms {} = []
    ∧ selectCategoryCandidates (fun _ _ => []) [] {} (some ["A"]) 1
        = fallbackCategories (materializeCategories [] (some ["A"])) 1 := by
  have hmat : materializeCategories [] (some ["A"]) = ["A"] := rfl
  exact ⟨by decide, by rw [hmat]; simp, rfl,
    (select_fallback_spec (fun _ _ => []) [] {} (some ["A"]) 1
      (by decide) (by rw [hmat]; simp) (Or.inl rfl)).1⟩

/-! ## Pairwise evaluation -/

/-- C3: the pairwise confidence is the weighted average
`(upc_weight*upc_score + title_brand_weight*title_brand_score) /
(upc_weight + title_brand_weight)`, floored at `0.95` exactly when the two
records share an 8–14-digit code; a shared code forces GTIN evidence score
`1.0` with `matched=true` and makes the pair matched; and in general the
pair is matched iff it shares a code or the weighted confidence reaches
`match_threshold`. -/
theorem evaluate_pair_spec (cfg : IdentityResolverConfig) (l r : Product)
    (hw : 0 < cfg.upc_weight + cfg.title_brand_weight) :
    ((evaluatePair cfg l r).confidence =
      if sharedGtins l r ≠ []
      then max ((cfg.upc_weight * 1 + cfg.title_brand_weight * titleBrandSimilarity l r)
          / (cfg.upc_weight + cfg.title_brand_weight)) (95 / 100)
      else (cfg.upc_weight * 0 + cfg.title_brand_weight * titleBrandSimilarity l r)
          / (cfg.upc_weight + cfg.title_brand_weight))
    ∧ (sharedGtins l r ≠ [] →
        ((evaluatePair cfg l r).evidence.head?.map MatchEvidence.score = some 1
        ∧ (evaluatePair cfg l r).evidence.head?.map MatchEvidence.matched = some true
        ∧ (evaluatePair cfg l r).matched = true
        ∧ 95 / 100 ≤ (evaluatePair cfg l r).confidence))
    ∧ ((evaluatePair cfg l r).matched = true ↔
        sharedGtins l r ≠ []
        ∨ cfg.match_threshold ≤
            (cfg.upc_weight * (if sharedGtins l r ≠ [] then (1 : ℚ) else 0)
              + cfg.title_brand_weight * titleBrandSimilarity l r)
            / (cfg.upc_weight + cfg.title_brand_weight)) := by
  by_cases hS : sharedGtins l r ≠ []
  · have hconf : (evaluatePair cfg l r).confidence =
        max ((cfg.upc_weight * 1 + cfg.title_brand_weight * titleBrandSimilarity l r)
          / (cfg.upc_weight + cfg.title_brand_weight)) (95 / 100) := by
      simp [evaluatePair, hS, if_pos hw]
    refine ⟨by rw [hconf, if_pos hS], fun _ => ⟨?_, ?_, ?_, ?_⟩, ?_⟩
    · simp [evaluatePair, hS]
    · simp [evaluatePair, hS]
    · simp [evaluatePair, hS]
    · rw [hconf]
      exact le_max_right _ _
    · simp [evaluatePair, hS]
  · have hSe : sharedGtins l r = [] := not_ne_iff.1 hS
    have hconf : (evaluatePair cfg l r).confidence =
        (cfg.upc_weight * 0 + cfg.title_brand_weight * titleBrandSimilarity l r)
          / (cfg.upc_weight + cfg.title_brand_weight) := by
      simp [evaluatePair, hSe, if_pos hw]
    have hmatch : (evaluatePair cfg l r).matched
        = (decide (sharedGtins l r ≠ [])
            || decide (cfg.match_threshold ≤ (evaluatePair cfg l r).confidence)) := rfl
    refine ⟨by rw [hconf, if_neg hS], fun hc => absurd hc hS, ?_⟩
    rw [if_neg hS, hmatch, hconf]
    simp [hSe]

/-- Witness for `evaluate_pair_spec`: two records sharing the code
`12345678` in their names are matched. -/
theorem evaluate_pair_spec_witness :
    ((0 : ℚ) < ({} : IdentityResolverConfig).upc_weight
        + ({} : IdentityResolverConfig).title_brand_weight)
    ∧ sharedGtins
        { defaultProduct with name := "Widget 12345678", brand := "Acme" }
        { defaultProduct with name := "Widget Pro 12345678", brand := "Acme" } ≠ []
    ∧ (evaluatePair {}
        { defaultProduct with name := "Widget 12345678", brand := "Acme" }
        { defaultProduct with name := "Widget Pro 12345678", brand := "Acme" }).matched
      = true := by
  have hsh : sharedGtins
      { defaultProduct with name := "Widget 12345678", brand := "Acme" }
      { defaultProduct with name := "Widget Pro 12345678", brand := "Acme" }
      = ["12345678"] := rfl
  have hne : sharedGtins
      { defaultProduct with name := "Widget 12345678", brand := "Acme" }
      { defaultProduct with name := "Widget Pro 12345678", brand := "Acme" } ≠ [] := by
    rw [hsh]
    simp
  exact ⟨by norm_num, hne,
    ((evaluate_pair_spec {}
      { defaultProduct with name := "Widget 12345678", brand := "Acme" }
      { defaultProduct with name := "Widget Pro 12345678", brand := "Acme" }
      (by norm_num)).2.1 hne).2.2.1⟩

/-! ## Canonical assignment -/

theorem lookup_eq_of_perm {l1 l2 : List (String × Product)}
    (h : l1.Perm l2) (hnodup : (l1.map Prod.fst).Nodup) (k : String) :
    l1.lookup k = l2.lookup k := by
  induction h with
  | nil => rfl
  | cons x h ih =>
    rcases x with ⟨a, b⟩
    by_cases hk : k = a
    · simp [List.lookup, hk]
    · have hb : (k == a) = false := beq_false_of_ne hk
      simp only [List.lookup, hb]
      exact ih (List.nodup_cons.1 (by simpa using hnodup)).2
  | swap x y l =>
    rcases x with ⟨a, b⟩
    rcases y with ⟨c, d⟩
    have hca : c ≠ a := by
      have h2 := hnodup
      simp only [List.map_cons, List.nodup_cons, List.mem_cons] at h2
      exact fun hc => h2.1 (Or.inl hc)
    by_cases hk : k = c
    · subst hk
      simp [List.lookup, beq_false_of_ne hca]
    · by_cases hk2 : k = a
      · subst hk2
        simp [List.lookup, beq_false_of_ne hk, beq_false_of_ne (Ne.symm hca)]
      · simp [List.lookup, beq_false_of_ne hk, beq_false_of_ne hk2]
  | trans h1 h2 ih1 ih2 =>
    exact (ih1 hnodup).trans (ih2 ((h1.map Prod.fst).nodup_iff.1 hnodup))

theorem lookup_map_annot (ps : List (String × Product)) (F : String → Product)
    (k : String) :
    (ps.map fun e => (e.1, F e.1)).lookup k = (ps.lookup k).map fun _ => F k := by
  induction ps with
  | nil => rfl
  | cons e rest ih =>
    by_cases hk : k = e.1
    · simp [List.lookup, hk]
    · simp only [List.map_cons, List.lookup, beq_false_of_ne hk]
      exact ih

theorem lookup_mem_isSome (ps : List (String × Product)) (pid : String) (p : Product)
    (hmem : (pid, p) ∈ ps) : ∃ v, ps.lookup pid = some v := by
  induction ps with
  | nil => cases hmem
  | cons e rest ih =>
    by_cases hk : pid = e.1
    · exact ⟨e.2, by simp [List.lookup, hk]⟩
    · rcases List.mem_cons.1 hmem with h | h
      · exact absurd (congrArg Prod.fst h) hk
      · rcases ih h with ⟨v, hv⟩
        exact ⟨v, by simp [List.lookup, beq_false_of_ne hk, hv]⟩

/-- C2: the canonical id of each record is
`"cp_" + sha256("||".join(sorted(cluster ids)))[:16]` over its
connected-component cluster; the whole assignment is invariant under any
permutation of the input mapping's key order; and the canonical id of a
cluster depends only on its membership (any reordering of the member list
hashes identically), not on which edges formed it. -/
theorem assign_canonical_spec (cfg : IdentityResolverConfig)
    (ps qs : List (String × Product))
    (hperm : ps.Perm qs) (hnodup : (ps.map Prod.fst).Nodup) :
    (∀ pid, (assignCanonicalProducts cfg ps).lookup pid
        = (assignCanonicalProducts cfg qs).lookup pid)
    ∧ (∀ pid p, (pid, p) ∈ ps →
        ((assignCanonicalProducts cfg ps).lookup pid).map Product.canonical_product_id
          = some (some (canonicalIdForComponent
              (componentOf cfg (fun q => ((ps.lookup q).getD defaultProduct))
                (pySortStrings (ps.map Prod.fst)) pid))))
    ∧ (∀ pid, canonicalIdForComponent
          (componentOf cfg (fun q => ((ps.lookup q).getD defaultProduct))
            (pySortStrings (ps.map Prod.fst)) pid)
        = "cp_" ++ ⟨(sha256Hex (utf8Encode (String.intercalate "||"
            (pySortStrings (componentOf cfg
              (fun q => ((ps.lookup q).getD defaultProduct))
              (pySortStrings (ps.map Prod.fst)) pid))))).data.take 16⟩)
    ∧ (∀ c1 c2 : List String, c1.Perm c2 →
        canonicalIdForComponent c1 = canonicalIdForComponent c2) := by
  have hassign : ∀ (l : List (String × Product)),
      assignCanonicalProducts cfg l
        = l.map fun entry => (entry.1,
            annotatedProduct cfg (fun q => ((l.lookup q).getD defaultProduct))
              (pySortStrings (l.map Prod.fst)) entry.1) := by
    intro l
    cases l with
    | nil => rfl
    | cons e rest => rfl
  refine ⟨?_, ?_, fun pid => rfl, ?_⟩
  · intro pid
    have hprods : (fun q => ((ps.lookup q).getD defaultProduct))
        = (fun q => ((qs.lookup q).getD defaultProduct)) :=
      funext fun q => by rw [lookup_eq_of_perm hperm hnodup q]
    have hids : pySortStrings (ps.map Prod.fst) = pySortStrings (qs.map Prod.fst) :=
      pySortStrings_eq_of_perm (hperm.map Prod.fst)
    rw [hassign ps, hassign qs, lookup_map_annot, lookup_map_annot,
      lookup_eq_of_perm hperm hnodup pid, hprods, hids]
  · intro pid p hmem
    rcases lookup_mem_isSome ps pid p hmem with ⟨v, hv⟩
    rw [hassign ps, lookup_map_annot, hv]
    rfl
  · intro c1 c2 hc
    unfold canonicalIdForComponent
    rw [pySortStrings_eq_of_perm hc]

/-- Witness for `assign_canonical_spec`: a two-record batch and its
reversal assign identical canonical ids. -/
theorem assign_canonical_spec_witness :
    (([("p1", defaultProduct), ("p2", defaultProduct)] :
        List (String × Product)).Perm [("p2", defaultProduct), ("p1", defaultProduct)])
    ∧ (([("p1", defaultProduct), ("p2", defaultProduct)] :
        List (String × Product)).map Prod.fst).Nodup
    ∧ (∀ pid, (assignCanonicalProducts {}
          [("p1", defaultProduct), ("p2", defaultProduct)]).lookup pid
        = (assignCanonicalProducts {}
          [("p2", defaultProduct), ("p1", defaultProduct)]).lookup pid) :=
  ⟨List.Perm.swap ("p2", defaultProduct) ("p1", defaultProduct) [],
    by decide,
    (assign_canonical_spec {}
      [("p1", defaultProduct), ("p2", defaultProduct)]
      [("p2", defaultProduct), ("p1", defaultProduct)]
      (List.Perm.swap ("p2", defaultProduct) ("p1", defaultProduct) [])
      (by decide)).1⟩

/-! ## The heap model -/

theorem heap_get_set_eq (h : PyHeap) (r : Nat) (p : Product)
    (hr : r < h.cells.length) : (h.set r p).get r = p := by
  simp [PyHeap.get, PyHeap.set, List.getD, List.getElem?_set_self hr]

theorem heap_get_set_ne (h : PyHeap) (r r2 : Nat) (p : Product)
    (hne : r ≠ r2) : (h.set r p).get r2 = h.get r2 := by
  simp [PyHeap.get, PyHeap.set, List.getD, List.getElem?_set_ne hne]

theorem heap_set_length (h : PyHeap) (r : Nat) (p : Product) :
    (h.set r p).cells.length = h.cells.length := by
  simp [PyHeap.set]

theorem heap_fold_length (g : String → Product → Product) (refOf : String → Nat) :
    ∀ (l : List String) (hh : PyHeap),
      (l.foldl (fun hcur pid =>
          hcur.set (refOf pid) (g pid (hcur.get (refOf pid)))) hh).cells.length
        = hh.cells.length := by
  intro l
  induction l with
  | nil => intro hh; rfl
  | cons x rest ih =>
    intro hh
    rw [List.foldl_cons, ih]
    exact heap_set_length hh _ _

theorem heap_fold_frame (g : String → Product → Product) (refOf : String → Nat) :
    ∀ (l : List String) (hh : PyHeap) (r : Nat),
      (∀ pid ∈ l, refOf pid ≠ r) →
      (l.foldl (fun hcur pid =>
          hcur.set (refOf pid) (g pid (hcur.get (refOf pid)))) hh).get r
        = hh.get r := by
  intro l
  induction l with
  | nil => intro hh r _; rfl
  | cons x rest ih =>
    intro hh r hall
    rw [List.foldl_cons, ih _ r fun pid hp => hall pid (List.mem_cons_of_mem _ hp)]
    exact heap_get_set_ne hh _ r _ (hall x (by simp))

theorem heap_fold_cell (g : String → Product → Product) (refOf : String → Nat) :
    ∀ (l : List String), l.Nodup →
      (∀ p ∈ l, ∀ q ∈ l, p ≠ q → refOf p ≠ refOf q) →
      ∀ (hh : PyHeap), (∀ pid ∈ l, refOf pid < hh.cells.length) →
      ∀ pid ∈ l,
        (l.foldl (fun hcur pid =>
            hcur.set (refOf pid) (g pid (hcur.get (refOf pid)))) hh).get (refOf pid)
          = g pid (hh.get (refOf pid)) := by
  intro l
  induction l with
  | nil => intro _ _ _ _ pid hp; cases hp
  | cons x rest ih =>
    intro hnodup hinj hh hbound pid hp
    rcases List.nodup_cons.1 hnodup with ⟨hxrest, hrest⟩
    rw [List.foldl_cons]
    rcases List.mem_cons.1 hp with rfl | hp2
    · have hframe : ∀ q ∈ rest, refOf q ≠ refOf pid := fun q hq =>
        hinj q (List.mem_cons_of_mem _ hq) pid (by simp)
          fun hqe => hxrest (hqe ▸ hq)
      rw [heap_fold_frame g refOf rest _ (refOf pid) hframe]
      exact heap_get_set_eq hh _ _ (hbound pid (by simp))
    · have hne : refOf pid ≠ refOf x :=
        hinj pid (List.mem_cons_of_mem _ hp2) x (by simp)
          (fun hpe => hxrest (hpe ▸ hp2))
      rw [ih hrest
        (fun p hpm q hqm hpq => hinj p (List.mem_cons_of_mem _ hpm)
          q (List.mem_cons_of_mem _ hqm) hpq)
        _
        (fun q hq => by
          rw [heap_set_length]
          exact hbound q (List.mem_cons_of_mem _ hq))
        pid hp2]
      rw [heap_get_set_ne hh _ _ _ hne.symm]

theorem refsFrom_keys : ∀ (batch : List (String × Nat)) (base : Nat),
    (refsFrom base batch).map Prod.fst = batch.map Prod.fst := by
  intro batch
  induction batch with
  | nil => intro base; rfl
  | cons e rest ih => intro base; simp [refsFrom, ih]

theorem refsFrom_lookup_bounds : ∀ (batch : List (String × Nat)) (base : Nat)
    (pid : String) (j : Nat),
    (refsFrom base batch).lookup pid = some j →
    base ≤ j ∧ j < base + batch.length := by
  intro batch
  induction batch with
  | nil => intro base pid j hj; cases hj
  | cons e rest ih =>
    intro base pid j hj
    by_cases hk : pid = e.1
    · have hjb : base = j := by simpa [refsFrom, List.lookup, hk] using hj
      simp [← hjb]
    · have hj2 : (refsFrom (base + 1) rest).lookup pid = some j := by
        simpa [refsFrom, List.lookup, beq_false_of_ne hk] using hj
      rcases ih (base + 1) pid j hj2 with ⟨h3, h4⟩
      constructor
      · omega
      · simp only [List.length_cons]
        omega

theorem refsFrom_lookup_inj : ∀ (batch : List (String × Nat)) (base : Nat)
    (p q : String) (jp jq : Nat), p ≠ q →
    (refsFrom base batch).lookup p = some jp →
    (refsFrom base batch).lookup q = some jq → jp ≠ jq := by
  intro batch
  induction batch with
  | nil => intro base p q jp jq _ hp _; cases hp
  | cons e rest ih =>
    intro base p q jp jq hpq hp hq
    by_cases hpk : p = e.1
    · have hjp : base = jp := by simpa [refsFrom, List.lookup, hpk] using hp
      have hqk : q ≠ e.1 := fun hc => hpq (hpk.trans hc.symm)
      have hq2 : (refsFrom (base + 1) rest).lookup q = some jq := by
        simpa [refsFrom, List.lookup, beq_false_of_ne hqk] using hq
      have := (refsFrom_lookup_bounds rest (base + 1) q jq hq2).1
      omega
    · have hp2 : (refsFrom (base + 1) rest).lookup p = some jp := by
        simpa [refsFrom, List.lookup, beq_false_of_ne hpk] using hp
      by_cases hqk : q = e.1
      · have hjq : base = jq := by simpa [refsFrom, List.lookup, hqk] using hq
        have := (refsFrom_lookup_bounds rest (base + 1) p jp hp2).1
        omega
      · have hq2 : (refsFrom (base + 1) rest).lookup q = some jq := by
          simpa [refsFrom, List.lookup, beq_false_of_ne hqk] using hq
        exact ih (base + 1) p q jp jq hpq hp2 hq2

theorem refsFrom_mem_base : ∀ (batch : List (String × Nat)) (base : Nat)
    (pid : String) (r : Nat), (pid, r) ∈ refsFrom base batch → base ≤ r := by
  intro batch
  induction batch with
  | nil => intro base pid r hm; cases hm
  | cons e rest ih =>
    intro base pid r hm
    rcases List.mem_cons.1 hm with heq | h2
    · cases heq
      exact le_refl _
    · have := ih (base + 1) pid r h2
      omega

theorem mem_lookup_nodup {β : Type} : ∀ (l : List (String × β)) (k : String) (v : β),
    (l.map Prod.fst).Nodup → (k, v) ∈ l → l.lookup k = some v := by
  intro l
  induction l with
  | nil => intro k v _ hm; cases hm
  | cons e rest ih =>
    intro k v hnodup hm
    rcases e with ⟨a, b⟩
    rcases List.mem_cons.1 hm with heq | h2
    · injection heq with h1 h3
      subst h1
      subst h3
      simp [List.lookup]
    · simp only [List.map_cons] at hnodup
      rcases List.nodup_cons.1 hnodup with ⟨hna, hnrest⟩
      by_cases hk : k = a
      · exfalso
        have hkeys : k ∈ rest.map Prod.fst := List.mem_map_of_mem Prod.fst h2
        exact hna (hk ▸ hkeys)
      · simp only [List.lookup, beq_false_of_ne hk]
        exact ih k v hnrest h2

theorem refsFrom_cell (h : PyHeap) :
    ∀ (batch : List (String × Nat)) (pref : List Product) (pid : String) (j : Nat),
      (refsFrom pref.length batch).lookup pid = some j →
      (PyHeap.mk (pref ++ batch.map fun e => h.get e.2)).get j
        = ((batch.map fun e => (e.1, h.get e.2)).lookup pid).getD defaultProduct := by
  intro batch
  induction batch with
  | nil => intro pref pid j hj; cases hj
  | cons e rest ih =>
    intro pref pid j hj
    by_cases hk : pid = e.1
    · have hjb : pref.length = j := by simpa [refsFrom, List.lookup, hk] using hj
      subst hjb
      have hget : (PyHeap.mk (pref ++ (e :: rest).map fun e2 => h.get e2.2)).get
          pref.length = h.get e.2 := by
        show (pref ++ (h.get e.2) :: rest.map fun e2 => h.get e2.2).getD
          pref.length defaultProduct = h.get e.2
        rw [List.getD, List.get?_append_right (le_refl _), Nat.sub_self]
        rfl
      rw [hget]
      simp [List.lookup, hk]
    · have hj2 : (refsFrom (pref.length + 1) rest).lookup pid = some j := by
        simpa [refsFrom, List.lookup, beq_false_of_ne hk] using hj
      have hre : (pref ++ [h.get e.2]).length = pref.length + 1 := by simp
      have hx := ih (pref ++ [h.get e.2]) pid j (by rw [hre]; exact hj2)
      rw [show pref ++ (e :: rest).map (fun e2 => h.get e2.2)
          = (pref ++ [h.get e.2]) ++ rest.map (fun e2 => h.get e2.2) from by simp]
      rw [hx]
      simp [List.lookup, beq_false_of_ne hk]

theorem heapRefOf_lookup (h : PyHeap) (batch : List (String × Nat))
    (hkeys : (batch.map Prod.fst).Nodup) (pid : String)
    (hpid : pid ∈ batch.map Prod.fst) :
    (refsFrom h.cells.length batch).lookup pid = some (heapRefOf h batch pid) := by
  have hrk := refsFrom_keys batch h.cells.length
  have hpid2 : pid ∈ (refsFrom h.cells.length batch).map Prod.fst := by
    rw [hrk]; exact hpid
  rcases List.mem_map.1 hpid2 with ⟨x, hx, hfst⟩
  have hmem : (pid, x.2) ∈ refsFrom h.cells.length batch := by
    rw [← hfst]; exact hx
  have hnod : ((refsFrom h.cells.length batch).map Prod.fst).Nodup := by
    rw [hrk]; exact hkeys
  have hlk := mem_lookup_nodup _ pid x.2 hnod hmem
  rw [hlk]
  simp [heapRefOf, hlk]

theorem heapRefOf_bounds (h : PyHeap) (batch : List (String × Nat))
    (hkeys : (batch.map Prod.fst).Nodup) (pid : String)
    (hpid : pid ∈ batch.map Prod.fst) :
    h.cells.length ≤ heapRefOf h batch pid
      ∧ heapRefOf h batch pid < h.cells.length + batch.length :=
  refsFrom_lookup_bounds batch h.cells.length pid _
    (heapRefOf_lookup h batch hkeys pid hpid)

theorem heapRefOf_inj (h : PyHeap) (batch : List (String × Nat))
    (hkeys : (batch.map Prod.fst).Nodup) (p q : String)
    (hp : p ∈ batch.map Prod.fst) (hq : q ∈ batch.map Prod.fst) (hpq : p ≠ q) :
    heapRefOf h batch p ≠ heapRefOf h batch q :=
  refsFrom_lookup_inj batch h.cells.length p q _ _ hpq
    (heapRefOf_lookup h batch hkeys p hp)
    (heapRefOf_lookup h batch hkeys q hq)

theorem mem_heapIds (batch : List (String × Nat)) (pid : String) :
    pid ∈ heapIds batch ↔ pid ∈ batch.map Prod.fst :=
  (List.perm_insertionSort _ _).mem_iff

theorem heapIds_nodup (batch : List (String × Nat))
    (hkeys : (batch.map Prod.fst).Nodup) : (heapIds batch).Nodup :=
  ((List.perm_insertionSort _ _).nodup_iff).2 hkeys

theorem heapCopies_get_of_lt (h : PyHeap) (batch : List (String × Nat))
    (r : Nat) (hr : r < h.cells.length) :
    (heapCopies h batch).get r = h.get r := by
  show (h.cells ++ batch.map fun e => h.get e.2).getD r defaultProduct
      = h.cells.getD r defaultProduct
  rw [List.getD, List.getD, List.get?_append hr]

theorem heapCopies_get_ref (h : PyHeap) (batch : List (String × Nat))
    (hkeys : (batch.map Prod.fst).Nodup) (pid : String)
    (hpid : pid ∈ batch.map Prod.fst) :
    (heapCopies h batch).get (heapRefOf h batch pid) = heapProds h batch pid :=
  refsFrom_cell h batch h.cells pid (heapRefOf h batch pid)
    (heapRefOf_lookup h batch hkeys pid hpid)

theorem heapPhaseA_cell (cfg : IdentityResolverConfig) (h : PyHeap)
    (batch : List (String × Nat)) (hkeys : (batch.map Prod.fst).Nodup)
    (pid : String) (hpid : pid ∈ batch.map Prod.fst) :
    (heapPhaseA cfg h batch).get (heapRefOf h batch pid)
      = { heapProds h batch pid with
          canonical_product_id := some (canonicalIdForComponent
            (componentOf cfg (heapProds h batch) (heapIds batch) pid)) } := by
  have hA : (heapPhaseA cfg h batch).get (heapRefOf h batch pid)
      = { (heapCopies h batch).get (heapRefOf h batch pid) with
          canonical_product_id := some (canonicalIdForComponent
            (componentOf cfg (heapProds h batch) (heapIds batch) pid)) } :=
    heap_fold_cell
      (fun pid c => { c with canonical_product_id := some (canonicalIdForComponent
          (componentOf cfg (heapProds h batch) (heapIds batch) pid)) })
      (heapRefOf h batch) (heapIds batch)
      (heapIds_nodup batch hkeys)
      (fun p hp q hq hpq => heapRefOf_inj h batch hkeys p q
        ((mem_heapIds batch p).1 hp) ((mem_heapIds batch q).1 hq) hpq)
      (heapCopies h batch)
      (fun q hq => by
        have hb := (heapRefOf_bounds h batch hkeys q ((mem_heapIds batch q).1 hq)).2
        simpa [heapCopies] using hb)
      pid ((mem_heapIds batch pid).2 hpid)
  rw [heapCopies_get_ref h batch hkeys pid hpid] at hA
  exact hA

theorem heapPhaseA_length (cfg : IdentityResolverConfig) (h : PyHeap)
    (batch : List (String × Nat)) :
    (heapPhaseA cfg h batch).cells.length = h.cells.length + batch.length := by
  have h1 : (heapPhaseA cfg h batch).cells.length
      = (heapCopies h batch).cells.length :=
    heap_fold_length
      (fun pid c => { c with canonical_product_id := some (canonicalIdForComponent
          (componentOf cfg (heapProds h batch) (heapIds batch) pid)) })
      (heapRefOf h batch) (heapIds batch) (heapCopies h batch)
  rw [h1]
  simp [heapCopies]

theorem heapPhaseB_cell (cfg : IdentityResolverConfig) (h : PyHeap)
    (batch : List (String × Nat)) (hkeys : (batch.map Prod.fst).Nodup)
    (pid : String) (hpid : pid ∈ batch.map Prod.fst) :
    (heapPhaseB cfg h batch).get (heapRefOf h batch pid)
      = annotatedProduct cfg (heapProds h batch) (heapIds batch) pid := by
  have hB : (heapPhaseB cfg h batch).get (heapRefOf h batch pid)
      = { (heapPhaseA cfg h batch).get (heapRefOf h batch pid) with
          match_decision := some (decisionFor cfg (heapProds h batch)
            (heapIds batch) pid) } :=
    heap_fold_cell
      (fun pid c => { c with match_decision := some (decisionFor cfg
          (heapProds h batch) (heapIds batch) pid) })
      (heapRefOf h batch) (heapIds batch)
      (heapIds_nodup batch hkeys)
      (fun p hp q hq hpq => heapRefOf_inj h batch hkeys p q
        ((mem_heapIds batch p).1 hp) ((mem_heapIds batch q).1 hq) hpq)
      (heapPhaseA cfg h batch)
      (fun q hq => by
        have hb := (heapRefOf_bounds h batch hkeys q ((mem_heapIds batch q).1 hq)).2
        rw [heapPhaseA_length]
        exact hb)
      pid ((mem_heapIds batch pid).2 hpid)
  rw [heapPhaseA_cell cfg h batch hkeys pid hpid] at hB
  exact hB

theorem heapPhaseB_frame (cfg : IdentityResolverConfig) (h : PyHeap)
    (batch : List (String × Nat)) (hkeys : (batch.map Prod.fst).Nodup)
    (r : Nat) (hr : r < h.cells.length) :
    (heapPhaseB cfg h batch).get r = h.get r := by
  have hframe : ∀ pid ∈ heapIds batch, heapRefOf h batch pid ≠ r := by
    intro pid hp hc
    have hb := (heapRefOf_bounds h batch hkeys pid ((mem_heapIds batch pid).1 hp)).1
    omega
  have hB : (heapPhaseB cfg h batch).get r = (heapPhaseA cfg h batch).get r :=
    heap_fold_frame
      (fun pid c => { c with match_decision := some (decisionFor cfg
          (heapProds h batch) (heapIds batch) pid) })
      (heapRefOf h batch) (heapIds batch) (heapPhaseA cfg h batch) r hframe
  have hA : (heapPhaseA cfg h batch).get r = (heapCopies h batch).get r :=
    heap_fold_frame
      (fun pid c => { c with canonical_product_id := some (canonicalIdForComponent
          (componentOf cfg (heapProds h batch) (heapIds batch) pid)) })
      (heapRefOf h batch) (heapIds batch) (heapCopies h batch) r hframe
  rw [hB, hA, heapCopies_get_of_lt h batch r hr]

/-- C8: `assign_canonical_products` never mutates the caller-owned records.
Over the explicit heap model (records are heap cells, the batch maps ids to
references, field assignment is an in-place cell write): for every config,
heap and batch with distinct ids, (a) every pre-existing heap cell — in
particular every caller-owned input record — holds exactly its original
value after the call, (b) the returned mapping has exactly the input ids in
input order, (c) every returned reference points at a fresh cell allocated
at or beyond the old heap end (the deep copies), and (d) the record behind
each returned id is its input record annotated with its component's
canonical id and its best-candidate match decision. -/
theorem assign_heap_spec (cfg : IdentityResolverConfig) (h : PyHeap)
    (batch : List (String × Nat))
    (hkeys : (batch.map Prod.fst).Nodup) :
    (∀ r, r < h.cells.length →
        (assignCanonicalProductsHeap cfg h batch).1.get r = h.get r)
    ∧ (assignCanonicalProductsHeap cfg h batch).2.map Prod.fst
        = batch.map Prod.fst
    ∧ (∀ e ∈ (assignCanonicalProductsHeap cfg h batch).2, h.cells.length ≤ e.2)
    ∧ (∀ pid r, (pid, r) ∈ (assignCanonicalProductsHeap cfg h batch).2 →
        (assignCanonicalProductsHeap cfg h batch).1.get r
          = annotatedProduct cfg (heapProds h batch) (heapIds batch) pid) := by
  cases batch with
  | nil =>
    refine ⟨fun r _ => rfl, rfl, ?_, ?_⟩
    · intro e he
      cases he
    · intro pid r hm
      cases hm
  | cons e0 rest0 =>
    have hassign : assignCanonicalProductsHeap cfg h (e0 :: rest0)
        = (heapPhaseB cfg h (e0 :: rest0),
            refsFrom h.cells.length (e0 :: rest0)) := rfl
    rw [hassign]
    refine ⟨?_, refsFrom_keys _ _, ?_, ?_⟩
    · intro r hr
      exact heapPhaseB_frame cfg h (e0 :: rest0) hkeys r hr
    · intro e he
      rcases e with ⟨pid, r⟩
      exact refsFrom_mem_base (e0 :: rest0) h.cells.length pid r he
    · intro pid r hm
      have hnodrefs : ((refsFrom h.cells.length (e0 :: rest0)).map Prod.fst).Nodup := by
        rw [refsFrom_keys]
        exact hkeys
      have hlk := mem_lookup_nodup _ pid r hnodrefs hm
      have hpidkeys : pid ∈ (e0 :: rest0).map Prod.fst := by
        have hmk := List.mem_map_of_mem Prod.fst hm
        rwa [refsFrom_keys] at hmk
      have hro : heapRefOf h (e0 :: rest0) pid = r := by
        simp [heapRefOf, hlk]
      rw [← hro]
      exact heapPhaseB_cell cfg h (e0 :: rest0) hkeys pid hpidkeys

theorem assign_heap_spec_witness :
    ((([("p1", 0), ("p2", 1)] : List (String × Nat)).map Prod.fst).Nodup)
    ∧ (∀ r, r < (PyHeap.mk [defaultProduct, defaultProduct]).cells.length →
        (assignCanonicalProductsHeap {} (PyHeap.mk [defaultProduct, defaultProduct])
          [("p1", 0), ("p2", 1)]).1.get r
          = (PyHeap.mk [defaultProduct, defaultProduct]).get r) :=
  ⟨by decide,
    (assign_heap_spec {} (PyHeap.mk [defaultProduct, defaultProduct])
      [("p1", 0), ("p2", 1)] (by decide)).1⟩
